import Mathlib

/-!
Verification of the pickleassem repository (src/pickleassem.py) against its
natural-language specification.  The Python module is shallowly embedded:
Python byte strings become `List Nat` (each element a byte value < 256),
Python `str` values become `List Nat` of Unicode code points, arbitrary
precision integers become `Int`/`Nat`, and the mutable assembler object
becomes a `PAState` record.  Every emission method only ever appends to the
payload (`self._payload += ...` in the source), so a method is modelled as a
function from its arguments and the assembler state to the list of bytes it
appends together with an optional raised error.
-/

set_option maxRecDepth 8192

namespace PickleAssem

/-! ### Integer packing (source: `pack`, pickleassem.py lines 30-52)

`natToBytesLE n m` is the little-endian base-256 digit expansion of `m` in
exactly `n` bytes, i.e. Python `m.to_bytes(n, 'little')` for `m < 256^n`.
`toBytesLE n x` handles signed values the way `int.to_bytes(..., signed=True)`
does for values that fit: two's complement, i.e. the expansion of
`x mod 256^n`. -/

/-- Python's `int.bit_length()` on a non-negative integer, written with
explicit fuel so that it evaluates by kernel reduction; `bitLength n` equals
Mathlib's `Nat.size n` (proved below). -/
def bitLengthAux : Nat → Nat → Nat
  | 0, _ => 0
  | fuel+1, n => if n = 0 then 0 else bitLengthAux fuel (n / 2) + 1

def bitLength (n : Nat) : Nat := bitLengthAux n n

def natToBytesLE : Nat → Nat → List Nat
  | 0, _ => []
  | n+1, m => m % 256 :: natToBytesLE n (m / 256)

def toBytesLE (n : Nat) (x : Int) : List Nat :=
  natToBytesLE n (x % (256 : Int) ^ n).toNat

/-- `pack(x, word_size=8, endian='<')` and friends.  In the source these go
through `struct.pack`; all call sites range-check first, and for in-range
values fixed-width packing is exactly the two's-complement expansion. -/
def p8 (x : Int) : List Nat := toBytesLE 1 x

def p16 (x : Int) : List Nat := toBytesLE 2 x

def p32 (x : Int) : List Nat := toBytesLE 4 x

def p64 (x : Int) : List Nat := toBytesLE 8 x

/-- `pack(x, endian='<', signed=True)` with automatic byte length, adapted in
the source from `pickle.encode_long`: `x == 0` gives `b''`; otherwise
`nbytes = (x.bit_length() >> 3) + 1` bytes of two's complement, dropping a
final redundant `0xff` byte for negative values.  `Nat.size` is exactly
Python's `int.bit_length` on non-negative integers. -/
def packSignedLE (x : Int) : List Nat :=
  if x = 0 then []
  else
    let nbytes := bitLength x.natAbs / 8 + 1
    let result := toBytesLE nbytes x
    if x < 0 ∧ 1 < nbytes ∧ result.getD (nbytes - 1) 0 = 255 ∧ result.getD (nbytes - 2) 0 &&& 128 ≠ 0 then
      result.dropLast
    else result

/-! Specification-side decoding functions, used to state that `packSignedLE`
really is a minimal-length little-endian two's-complement encoding. -/

def decodeUnsignedLE : List Nat → Nat
  | [] => 0
  | b :: bs => b + 256 * decodeUnsignedLE bs

def decodeSignedLE (bs : List Nat) : Int :=
  if bs.getLastD 0 < 128 then (decodeUnsignedLE bs : Int)
  else (decodeUnsignedLE bs : Int) - (256 : Int) ^ bs.length

example : packSignedLE 0 = [] := by decide
example : packSignedLE 255 = [255, 0] := by decide
example : packSignedLE (-256) = [0, 255] := by decide
example : packSignedLE (-128) = [128] := by decide
example : packSignedLE (-129) = [127, 255] := by decide

/-! ### Arithmetic facts about `bitLength` and the byte expansions -/

theorem size_eq_size_half_succ {n : Nat} (h : n ≠ 0) :
    Nat.size n = Nat.size (n / 2) + 1 := by
  apply le_antisymm
  · rw [Nat.size_le]
    have h1 : n / 2 < 2 ^ Nat.size (n / 2) := Nat.lt_size_self _
    have h2 : (2 : Nat) ^ (Nat.size (n / 2) + 1) = 2 * 2 ^ Nat.size (n / 2) := by
      rw [pow_succ]; ring
    omega
  · have hle : 2 ^ Nat.size (n / 2) ≤ n := by
      cases hs : Nat.size (n / 2) with
      | zero => simpa using Nat.pos_of_ne_zero h
      | succ k =>
        have h2 : 2 ^ k ≤ n / 2 := Nat.lt_size.mp (by omega)
        have h3 : (2 : Nat) ^ (k + 1) = 2 * 2 ^ k := by rw [pow_succ]; ring
        omega
    have := Nat.lt_size.mpr hle
    omega

theorem bitLengthAux_eq_size (fuel n : Nat) (h : n ≤ fuel) :
    bitLengthAux fuel n = Nat.size n := by
  induction fuel generalizing n with
  | zero =>
    have hn : n = 0 := by omega
    subst hn
    simp [bitLengthAux, Nat.size_zero]
  | succ f ih =>
    by_cases hn : n = 0
    · subst hn; simp [bitLengthAux, Nat.size_zero]
    · rw [bitLengthAux, if_neg hn, ih (n / 2) (by omega)]
      exact (size_eq_size_half_succ hn).symm

theorem bitLength_eq_size (n : Nat) : bitLength n = Nat.size n :=
  bitLengthAux_eq_size n n le_rfl

theorem bitLength_le {m k : Nat} : bitLength m ≤ k ↔ m < 2 ^ k := by
  rw [bitLength_eq_size]; exact Nat.size_le

theorem lt_bitLength {k m : Nat} : k < bitLength m ↔ 2 ^ k ≤ m := by
  rw [bitLength_eq_size]; exact Nat.lt_size

theorem lt_two_pow_bitLength (m : Nat) : m < 2 ^ bitLength m := by
  rw [bitLength_eq_size]; exact Nat.lt_size_self m

theorem two_pow_8mul (k : Nat) : (2 : Nat) ^ (8 * k) = 256 ^ k := by
  rw [pow_mul]; norm_num

/-- Upper bound: any `a` is below `128 * 256 ^ (bitLength a / 8)`,
i.e. below `2 ^ (8 * nbytes - 1)` for `nbytes = bitLength a / 8 + 1`. -/
theorem abs_lt_halfpow (a : Nat) : a < 128 * 256 ^ (bitLength a / 8) := by
  have h1 := lt_two_pow_bitLength a
  have h2 : bitLength a ≤ 8 * (bitLength a / 8) + 7 := by omega
  calc a < 2 ^ bitLength a := h1
    _ ≤ 2 ^ (8 * (bitLength a / 8) + 7) := Nat.pow_le_pow_right (by norm_num) h2
    _ = 128 * 256 ^ (bitLength a / 8) := by rw [pow_add, two_pow_8mul]; ring

/-- Lower bound used for minimality: when `a` needs at least two bytes, it is
at least `128 * 256 ^ (bitLength a / 8 - 1)`. -/
theorem halfpow_le_abs (a : Nat) (h8 : 8 ≤ bitLength a) :
    128 * 256 ^ (bitLength a / 8 - 1) ≤ a := by
  have h1 : 2 ^ (bitLength a - 1) ≤ a := lt_bitLength.mp (by omega)
  calc 128 * 256 ^ (bitLength a / 8 - 1)
      = 2 ^ (8 * (bitLength a / 8 - 1) + 7) := by rw [pow_add, two_pow_8mul]; ring
    _ ≤ 2 ^ (bitLength a - 1) := Nat.pow_le_pow_right (by norm_num) (by omega)
    _ ≤ a := h1

theorem length_natToBytesLE (n m : Nat) : (natToBytesLE n m).length = n := by
  induction n generalizing m with
  | zero => rfl
  | succ k ih => simp [natToBytesLE, ih]

theorem natToBytesLE_snoc (n m : Nat) :
    natToBytesLE (n + 1) m = natToBytesLE n m ++ [m / 256 ^ n % 256] := by
  induction n generalizing m with
  | zero => simp [natToBytesLE]
  | succ k ih =>
    show m % 256 :: natToBytesLE (k + 1) (m / 256) = _
    rw [ih (m / 256), Nat.div_div_eq_div_mul]
    have h : (256 : Nat) * 256 ^ k = 256 ^ (k + 1) := by rw [pow_succ]; ring
    rw [h]
    simp [natToBytesLE]

theorem mod_mul_decomp (m c d : Nat) : m % (c * d) = m % c + c * (m / c % d) := by
  conv_lhs => rw [← Nat.mod_add_div (m % (c * d)) c]
  rw [Nat.mod_mod_of_dvd m ⟨d, rfl⟩, Nat.mod_mul_right_div_self]

theorem decodeUnsignedLE_natToBytesLE (n m : Nat) :
    decodeUnsignedLE (natToBytesLE n m) = m % 256 ^ n := by
  induction n generalizing m with
  | zero => simp [natToBytesLE, decodeUnsignedLE, Nat.mod_one]
  | succ k ih =>
    rw [natToBytesLE, decodeUnsignedLE, ih]
    rw [pow_succ, Nat.mul_comm (256 ^ k) 256, mod_mul_decomp]

theorem getD_natToBytesLE (n m i : Nat) (h : i < n) :
    (natToBytesLE n m).getD i 0 = m / 256 ^ i % 256 := by
  induction n generalizing m i with
  | zero => omega
  | succ k ih =>
    cases i with
    | zero => simp [natToBytesLE]
    | succ j =>
      rw [natToBytesLE]
      simp only [List.getD_cons_succ]
      rw [ih (m / 256) j (by omega), Nat.div_div_eq_div_mul]
      rw [pow_succ, Nat.mul_comm (256 ^ j) 256]

theorem dropLast_natToBytesLE (n m : Nat) :
    (natToBytesLE (n + 1) m).dropLast = natToBytesLE n m := by
  rw [natToBytesLE_snoc]
  simp

theorem getLastD_natToBytesLE (n m : Nat) :
    (natToBytesLE (n + 1) m).getLastD 0 = m / 256 ^ n % 256 := by
  rw [natToBytesLE_snoc]
  simp

theorem toBytesLE_of_nonneg {n : Nat} {x : Int} (h0 : 0 ≤ x) (h1 : x.toNat < 256 ^ n) :
    toBytesLE n x = natToBytesLE n x.toNat := by
  unfold toBytesLE
  have hcast : ((256 ^ n : Nat) : Int) = (256 : Int) ^ n := by push_cast; ring
  rw [← hcast, Int.emod_eq_of_lt h0 (by omega)]

theorem toBytesLE_of_neg {n : Nat} {x : Int} (h1 : x < 0) (h2 : x.natAbs ≤ 256 ^ n) :
    toBytesLE n x = natToBytesLE n (256 ^ n - x.natAbs) := by
  unfold toBytesLE
  have hcast : ((256 ^ n : Nat) : Int) = (256 : Int) ^ n := by push_cast; ring
  rw [← hcast]
  have hmod : x % ((256 ^ n : Nat) : Int) = x + ((256 ^ n : Nat) : Int) := by
    have h3 : (x + ((256 ^ n : Nat) : Int)) % ((256 ^ n : Nat) : Int)
        = x % ((256 ^ n : Nat) : Int) := by
      rw [show x + ((256 ^ n : Nat) : Int) = x + ((256 ^ n : Nat) : Int) * 1 by ring,
        Int.add_mul_emod_self_left]
    rw [← h3, Int.emod_eq_of_lt (by omega) (by omega)]
  rw [hmod]
  congr 1
  omega

theorem and_128_ne_zero {b : Nat} (h : b < 256) : b &&& 128 ≠ 0 ↔ 128 ≤ b := by
  have h1 : b &&& 128 = (b.testBit 7).toNat * 128 := by
    have := Nat.and_two_pow b 7
    norm_num at this
    exact this
  rw [h1, Nat.testBit_to_div_mod]
  rcases Nat.lt_or_ge b 128 with hb | hb
  · have : b / 128 = 0 := by omega
    simp [this]
    omega
  · have : b / 128 = 1 := by omega
    simp [this]
    omega

/-- `packSignedLE` on a positive integer: no byte is trimmed, the result is
the plain `nbytes`-byte expansion of the absolute value. -/
theorem packSignedLE_pos {x : Int} (hx : 0 < x) :
    packSignedLE x = natToBytesLE (bitLength x.natAbs / 8 + 1) x.natAbs := by
  have hne : ¬(x = 0) := by omega
  have hK := abs_lt_halfpow x.natAbs
  have hpow : (256 : Nat) ^ (bitLength x.natAbs / 8 + 1)
      = 256 ^ (bitLength x.natAbs / 8) * 256 := pow_succ _ _
  have hB1 : 0 < (256 : Nat) ^ (bitLength x.natAbs / 8) := pow_pos (by norm_num) _
  have hta : x.toNat = x.natAbs := by omega
  simp only [packSignedLE]
  rw [if_neg hne, if_neg (by rintro ⟨h1, -⟩; omega)]
  rw [toBytesLE_of_nonneg (by omega) (by omega), hta]

/-- `packSignedLE` on a negative integer: the final `0xff` byte is trimmed
exactly when the absolute value needs at least two bytes and fits in the
signed range of one byte fewer, i.e. `x.natAbs ≤ 128 * 256 ^ (nbytes - 2)`. -/
theorem packSignedLE_neg {x : Int} (hx : x < 0) :
    packSignedLE x =
      if x.natAbs ≤ 128 * 256 ^ (bitLength x.natAbs / 8 - 1) ∧ 8 ≤ bitLength x.natAbs then
        natToBytesLE (bitLength x.natAbs / 8)
          (256 ^ (bitLength x.natAbs / 8 + 1) - x.natAbs)
      else
        natToBytesLE (bitLength x.natAbs / 8 + 1)
          (256 ^ (bitLength x.natAbs / 8 + 1) - x.natAbs) := by
  have hne : ¬(x = 0) := by omega
  have ha1 : 1 ≤ x.natAbs := by omega
  have hK := abs_lt_halfpow x.natAbs
  have hpow : (256 : Nat) ^ (bitLength x.natAbs / 8 + 1)
      = 256 ^ (bitLength x.natAbs / 8) * 256 := pow_succ _ _
  have hB1 : 0 < (256 : Nat) ^ (bitLength x.natAbs / 8) := pow_pos (by norm_num) _
  have hC1 : 0 < (256 : Nat) ^ (bitLength x.natAbs / 8 - 1) := pow_pos (by norm_num) _
  have hbytes := toBytesLE_of_neg (n := bitLength x.natAbs / 8 + 1) hx (by omega)
  have hidx1 : bitLength x.natAbs / 8 + 1 - 1 = bitLength x.natAbs / 8 := by omega
  -- the top byte of the two's-complement expansion
  have hbyte1 : (natToBytesLE (bitLength x.natAbs / 8 + 1)
        (256 ^ (bitLength x.natAbs / 8 + 1) - x.natAbs)).getD (bitLength x.natAbs / 8) 0
      = (256 ^ (bitLength x.natAbs / 8 + 1) - x.natAbs) / 256 ^ (bitLength x.natAbs / 8) % 256 :=
    getD_natToBytesLE _ _ _ (by omega)
  have hq1lt : (256 ^ (bitLength x.natAbs / 8 + 1) - x.natAbs) / 256 ^ (bitLength x.natAbs / 8)
      < 256 := by
    rw [Nat.div_lt_iff_lt_mul hB1]
    omega
  by_cases hcase : x.natAbs ≤ 128 * 256 ^ (bitLength x.natAbs / 8 - 1) ∧ 8 ≤ bitLength x.natAbs
  · -- trimming occurs
    obtain ⟨hsmall, h8⟩ := hcase
    have hCB : (256 : Nat) ^ (bitLength x.natAbs / 8)
        = 256 ^ (bitLength x.natAbs / 8 - 1) * 256 := by
      conv_lhs => rw [show bitLength x.natAbs / 8 = bitLength x.natAbs / 8 - 1 + 1 by omega]
      rw [pow_succ]
    have hidx2 : bitLength x.natAbs / 8 + 1 - 2 = bitLength x.natAbs / 8 - 1 := by omega
    have hq1 : (256 ^ (bitLength x.natAbs / 8 + 1) - x.natAbs) / 256 ^ (bitLength x.natAbs / 8)
        = 255 := by
      apply Nat.div_eq_of_lt_le <;> omega
    have hbyte2 : (natToBytesLE (bitLength x.natAbs / 8 + 1)
          (256 ^ (bitLength x.natAbs / 8 + 1) - x.natAbs)).getD (bitLength x.natAbs / 8 - 1) 0
        = (256 ^ (bitLength x.natAbs / 8 + 1) - x.natAbs) / 256 ^ (bitLength x.natAbs / 8 - 1)
            % 256 :=
      getD_natToBytesLE _ _ _ (by omega)
    have hdec := mod_mul_decomp (256 ^ (bitLength x.natAbs / 8 + 1) - x.natAbs)
      (256 ^ (bitLength x.natAbs / 8 - 1)) 256
    have hmodB : (256 ^ (bitLength x.natAbs / 8 + 1) - x.natAbs) % 256 ^ (bitLength x.natAbs / 8)
        = 256 ^ (bitLength x.natAbs / 8) - x.natAbs := by
      rw [show 256 ^ (bitLength x.natAbs / 8 + 1) - x.natAbs
          = 256 ^ (bitLength x.natAbs / 8) - x.natAbs + 256 ^ (bitLength x.natAbs / 8) * 255
          by omega]
      rw [Nat.add_mul_mod_self_left, Nat.mod_eq_of_lt (by omega)]
    have hmc : (256 ^ (bitLength x.natAbs / 8 + 1) - x.natAbs) % 256 ^ (bitLength x.natAbs / 8 - 1)
        < 256 ^ (bitLength x.natAbs / 8 - 1) := Nat.mod_lt _ hC1
    have hb2lt : (256 ^ (bitLength x.natAbs / 8 + 1) - x.natAbs) / 256 ^ (bitLength x.natAbs / 8 - 1)
        % 256 < 256 := Nat.mod_lt _ (by norm_num)
    have hbyte2ge : 128 ≤ (256 ^ (bitLength x.natAbs / 8 + 1) - x.natAbs)
        / 256 ^ (bitLength x.natAbs / 8 - 1) % 256 := by
      by_contra hcon
      push_neg at hcon
      have hmul : 256 ^ (bitLength x.natAbs / 8 - 1)
            * ((256 ^ (bitLength x.natAbs / 8 + 1) - x.natAbs)
              / 256 ^ (bitLength x.natAbs / 8 - 1) % 256)
          ≤ 256 ^ (bitLength x.natAbs / 8 - 1) * 127 :=
        Nat.mul_le_mul_left _ (by omega)
      rw [← hCB] at hdec
      omega
    simp only [packSignedLE]
    rw [if_neg hne, hbytes]
    rw [if_pos ⟨hx, by omega, by rw [hidx1, hbyte1, hq1], by
      rw [hidx2, hbyte2]
      exact (and_128_ne_zero hb2lt).mpr hbyte2ge⟩]
    rw [if_pos ⟨hsmall, h8⟩]
    exact dropLast_natToBytesLE _ _
  · -- no trimming
    have hnc : ¬(x < 0 ∧ 1 < bitLength x.natAbs / 8 + 1 ∧
        (natToBytesLE (bitLength x.natAbs / 8 + 1)
          (256 ^ (bitLength x.natAbs / 8 + 1) - x.natAbs)).getD
            (bitLength x.natAbs / 8 + 1 - 1) 0 = 255 ∧
        (natToBytesLE (bitLength x.natAbs / 8 + 1)
          (256 ^ (bitLength x.natAbs / 8 + 1) - x.natAbs)).getD
            (bitLength x.natAbs / 8 + 1 - 2) 0 &&& 128 ≠ 0) := by
      rintro ⟨-, h1n, hb1, hb2⟩
      have h8 : 8 ≤ bitLength x.natAbs := by omega
      have hidx2 : bitLength x.natAbs / 8 + 1 - 2 = bitLength x.natAbs / 8 - 1 := by omega
      have hCB : (256 : Nat) ^ (bitLength x.natAbs / 8)
          = 256 ^ (bitLength x.natAbs / 8 - 1) * 256 := by
        conv_lhs => rw [show bitLength x.natAbs / 8 = bitLength x.natAbs / 8 - 1 + 1 by omega]
        rw [pow_succ]
      rw [hidx1, hbyte1, Nat.mod_eq_of_lt hq1lt] at hb1
      have hdm := Nat.div_mul_le_self
        (256 ^ (bitLength x.natAbs / 8 + 1) - x.natAbs) (256 ^ (bitLength x.natAbs / 8))
      rw [hb1] at hdm
      have haB : x.natAbs ≤ 256 ^ (bitLength x.natAbs / 8) := by omega
      have hbyte2 := getD_natToBytesLE (bitLength x.natAbs / 8 + 1)
        (256 ^ (bitLength x.natAbs / 8 + 1) - x.natAbs) (bitLength x.natAbs / 8 - 1) (by omega)
      rw [hidx2, hbyte2] at hb2
      have hb2lt : (256 ^ (bitLength x.natAbs / 8 + 1) - x.natAbs)
          / 256 ^ (bitLength x.natAbs / 8 - 1) % 256 < 256 := Nat.mod_lt _ (by norm_num)
      have hge := (and_128_ne_zero hb2lt).mp hb2
      have hdec := mod_mul_decomp (256 ^ (bitLength x.natAbs / 8 + 1) - x.natAbs)
        (256 ^ (bitLength x.natAbs / 8 - 1)) 256
      rw [← hCB] at hdec
      have hmodB : (256 ^ (bitLength x.natAbs / 8 + 1) - x.natAbs)
            % 256 ^ (bitLength x.natAbs / 8)
          = 256 ^ (bitLength x.natAbs / 8) - x.natAbs := by
        rw [show 256 ^ (bitLength x.natAbs / 8 + 1) - x.natAbs
            = 256 ^ (bitLength x.natAbs / 8) - x.natAbs + 256 ^ (bitLength x.natAbs / 8) * 255
            by omega]
        rw [Nat.add_mul_mod_self_left, Nat.mod_eq_of_lt (by omega)]
      have hmc : (256 ^ (bitLength x.natAbs / 8 + 1) - x.natAbs)
          % 256 ^ (bitLength x.natAbs / 8 - 1) < 256 ^ (bitLength x.natAbs / 8 - 1) :=
        Nat.mod_lt _ hC1
      have hmul : 256 ^ (bitLength x.natAbs / 8 - 1) * 128
          ≤ 256 ^ (bitLength x.natAbs / 8 - 1)
            * ((256 ^ (bitLength x.natAbs / 8 + 1) - x.natAbs)
              / 256 ^ (bitLength x.natAbs / 8 - 1) % 256) :=
        Nat.mul_le_mul_left _ hge
      exact hcase ⟨by omega, h8⟩
    simp only [packSignedLE]
    rw [if_neg hne, hbytes, if_neg hnc, if_neg hcase]

theorem sub_mod_eq {a B : Nat} (ha1 : 1 ≤ a) (haB : a ≤ B) : (B * 256 - a) % B = B - a := by
  rw [show B * 256 - a = B - a + B * 255 by omega, Nat.add_mul_mod_self_left,
    Nat.mod_eq_of_lt (by omega)]

theorem trim_byte_ge {a B C : Nat} (hC1 : 0 < C) (hB : B = C * 256) (ha1 : 1 ≤ a)
    (hsmall : a ≤ 128 * C) : 128 ≤ (B * 256 - a) / C % 256 := by
  have hdec := mod_mul_decomp (B * 256 - a) C 256
  rw [← hB] at hdec
  have hmodB : (B * 256 - a) % B = B - a := sub_mod_eq ha1 (by omega)
  have hmc : (B * 256 - a) % C < C := Nat.mod_lt _ hC1
  by_contra hcon
  push_neg at hcon
  have hmul : C * ((B * 256 - a) / C % 256) ≤ C * 127 := Nat.mul_le_mul_left _ (by omega)
  omega

/-- The byte length of a minimal signed encoding is at most `k` exactly when
the value fits in the signed range of `k` bytes,
`[-(128 * 256^(k-1)), 128 * 256^(k-1) - 1]`.  (For `k = 255` the bounds are
`-(2^2039)` and `2^2039 - 1`: the `LONG1`/`push_long1` range.) -/
theorem packSignedLE_length_le_iff (x : Int) (k : Nat) (hk : 1 ≤ k) :
    (packSignedLE x).length ≤ k ↔
      -(128 * (256 : Int) ^ (k - 1)) ≤ x ∧ x < 128 * (256 : Int) ^ (k - 1) := by
  have hHpos : (0 : Int) < 128 * (256 : Int) ^ (k - 1) := by positivity
  have hcast : ((128 * 256 ^ (k - 1) : Nat) : Int) = 128 * (256 : Int) ^ (k - 1) := by
    push_cast; ring
  rcases lt_trichotomy x 0 with hx | hx | hx
  · -- negative values
    have ha1 : 1 ≤ x.natAbs := by omega
    have hK := abs_lt_halfpow x.natAbs
    rw [packSignedLE_neg hx]
    by_cases hcase : x.natAbs ≤ 128 * 256 ^ (bitLength x.natAbs / 8 - 1)
        ∧ 8 ≤ bitLength x.natAbs
    · rw [if_pos hcase, length_natToBytesLE]
      obtain ⟨hsmall, h8⟩ := hcase
      constructor
      · intro hlen
        refine ⟨?_, by omega⟩
        rcases Nat.lt_or_ge (bitLength x.natAbs / 8) k with hlt | hge
        · have hmono : (256 : Nat) ^ (bitLength x.natAbs / 8) ≤ 256 ^ (k - 1) :=
            Nat.pow_le_pow_right (by norm_num) (by omega)
          omega
        · have hek : bitLength x.natAbs / 8 = k := by omega
          rw [hek] at hsmall
          omega
      · rintro ⟨hge, -⟩
        by_contra hcon
        push_neg at hcon
        have hlow := halfpow_le_abs x.natAbs h8
        have hmono : (256 : Nat) ^ (k - 1) < 256 ^ (bitLength x.natAbs / 8 - 1) :=
          Nat.pow_lt_pow_right (by norm_num) (by omega)
        omega
    · rw [if_neg hcase, length_natToBytesLE]
      constructor
      · intro hlen
        refine ⟨?_, by omega⟩
        have hmono : (256 : Nat) ^ (bitLength x.natAbs / 8) ≤ 256 ^ (k - 1) :=
          Nat.pow_le_pow_right (by norm_num) (by omega)
        omega
      · rintro ⟨hge, -⟩
        by_contra hcon
        push_neg at hcon
        have h8 : 8 ≤ bitLength x.natAbs := by
          by_contra h8n
          push_neg at h8n
          have : bitLength x.natAbs / 8 = 0 := by omega
          omega
        have hbig : 128 * 256 ^ (bitLength x.natAbs / 8 - 1) < x.natAbs := by
          rcases Nat.lt_or_ge (128 * 256 ^ (bitLength x.natAbs / 8 - 1)) x.natAbs with h | h
          · exact h
          · exact absurd ⟨h, h8⟩ hcase
        have hmono : (256 : Nat) ^ (k - 1) ≤ 256 ^ (bitLength x.natAbs / 8 - 1) :=
          Nat.pow_le_pow_right (by norm_num) (by omega)
        omega
  · subst hx
    have h0 : packSignedLE 0 = [] := by decide
    rw [h0]
    simp only [List.length_nil]
    constructor
    · intro _
      constructor <;> omega
    · intro _
      omega
  · -- positive values
    have hK := abs_lt_halfpow x.natAbs
    have hnat : (2 : Nat) ^ (8 * (k - 1) + 7) = 128 * 256 ^ (k - 1) := by
      rw [pow_add, two_pow_8mul]; ring
    have hiff : bitLength x.natAbs / 8 + 1 ≤ k ↔ x.natAbs < 128 * 256 ^ (k - 1) := by
      rw [← hnat, ← bitLength_le]
      omega
    rw [packSignedLE_pos hx, length_natToBytesLE, hiff]
    omega

/-- Decoding inverts `packSignedLE`: the packed bytes really are a
two's-complement encoding of the value. -/
theorem decodeSignedLE_packSignedLE (x : Int) : decodeSignedLE (packSignedLE x) = x := by
  rcases lt_trichotomy x 0 with hx | hx | hx
  · have hne : ¬(x = 0) := by omega
    have ha1 : 1 ≤ x.natAbs := by omega
    have hK := abs_lt_halfpow x.natAbs
    have hpow : (256 : Nat) ^ (bitLength x.natAbs / 8 + 1)
        = 256 ^ (bitLength x.natAbs / 8) * 256 := pow_succ _ _
    have hB1 : 0 < (256 : Nat) ^ (bitLength x.natAbs / 8) := pow_pos (by norm_num) _
    have hC1 : 0 < (256 : Nat) ^ (bitLength x.natAbs / 8 - 1) := pow_pos (by norm_num) _
    rw [packSignedLE_neg hx]
    by_cases hcase : x.natAbs ≤ 128 * 256 ^ (bitLength x.natAbs / 8 - 1)
        ∧ 8 ≤ bitLength x.natAbs
    · obtain ⟨hsmall, h8⟩ := hcase
      rw [if_pos ⟨hsmall, h8⟩]
      have hCB : (256 : Nat) ^ (bitLength x.natAbs / 8)
          = 256 ^ (bitLength x.natAbs / 8 - 1) * 256 := by
        conv_lhs => rw [show bitLength x.natAbs / 8 = bitLength x.natAbs / 8 - 1 + 1 by omega]
        rw [pow_succ]
      have hsh : bitLength x.natAbs / 8 = bitLength x.natAbs / 8 - 1 + 1 := by omega
      have hlast := getLastD_natToBytesLE (bitLength x.natAbs / 8 - 1)
        (256 ^ (bitLength x.natAbs / 8 + 1) - x.natAbs)
      rw [← hsh] at hlast
      have hge : 128 ≤ (256 ^ (bitLength x.natAbs / 8 + 1) - x.natAbs)
          / 256 ^ (bitLength x.natAbs / 8 - 1) % 256 := by
        have := trim_byte_ge hC1 hCB ha1 hsmall
        rw [show (256 : Nat) ^ (bitLength x.natAbs / 8) * 256
            = 256 ^ (bitLength x.natAbs / 8 + 1) from hpow.symm] at this
        exact this
      rw [decodeSignedLE, if_neg (by omega), decodeUnsignedLE_natToBytesLE,
        length_natToBytesLE]
      have hmodB : (256 ^ (bitLength x.natAbs / 8 + 1) - x.natAbs)
            % 256 ^ (bitLength x.natAbs / 8)
          = 256 ^ (bitLength x.natAbs / 8) - x.natAbs := by
        rw [show 256 ^ (bitLength x.natAbs / 8 + 1) - x.natAbs
            = 256 ^ (bitLength x.natAbs / 8) * 256 - x.natAbs by omega]
        exact sub_mod_eq ha1 (by omega)
      rw [hmodB]
      have hcastB : ((256 ^ (bitLength x.natAbs / 8) : Nat) : Int)
          = (256 : Int) ^ (bitLength x.natAbs / 8) := by push_cast; ring
      omega
    · rw [if_neg hcase]
      have hge128 : 128 * 256 ^ (bitLength x.natAbs / 8) ≤
          256 ^ (bitLength x.natAbs / 8 + 1) - x.natAbs := by omega
      have hlast : (natToBytesLE (bitLength x.natAbs / 8 + 1)
            (256 ^ (bitLength x.natAbs / 8 + 1) - x.natAbs)).getLastD 0
          = (256 ^ (bitLength x.natAbs / 8 + 1) - x.natAbs)
              / 256 ^ (bitLength x.natAbs / 8) % 256 := getLastD_natToBytesLE _ _
      have hqlt : (256 ^ (bitLength x.natAbs / 8 + 1) - x.natAbs)
          / 256 ^ (bitLength x.natAbs / 8) < 256 := by
        rw [Nat.div_lt_iff_lt_mul hB1]
        omega
      have hqge : 128 ≤ (256 ^ (bitLength x.natAbs / 8 + 1) - x.natAbs)
          / 256 ^ (bitLength x.natAbs / 8) := by
        rw [Nat.le_div_iff_mul_le hB1]
        omega
      rw [decodeSignedLE, if_neg (by rw [hlast, Nat.mod_eq_of_lt hqlt]; omega),
        decodeUnsignedLE_natToBytesLE, length_natToBytesLE,
        Nat.mod_eq_of_lt (by omega)]
      have hcastP : ((256 ^ (bitLength x.natAbs / 8 + 1) : Nat) : Int)
          = (256 : Int) ^ (bitLength x.natAbs / 8 + 1) := by push_cast; ring
      omega
  · subst hx
    simp [packSignedLE, decodeSignedLE, decodeUnsignedLE]
  · have hK := abs_lt_halfpow x.natAbs
    have hpow : (256 : Nat) ^ (bitLength x.natAbs / 8 + 1)
        = 256 ^ (bitLength x.natAbs / 8) * 256 := pow_succ _ _
    have hB1 : 0 < (256 : Nat) ^ (bitLength x.natAbs / 8) := pow_pos (by norm_num) _
    rw [packSignedLE_pos hx]
    have hlast : (natToBytesLE (bitLength x.natAbs / 8 + 1) x.natAbs).getLastD 0
        = x.natAbs / 256 ^ (bitLength x.natAbs / 8) % 256 := getLastD_natToBytesLE _ _
    have hqlt : x.natAbs / 256 ^ (bitLength x.natAbs / 8) < 128 := by
      rw [Nat.div_lt_iff_lt_mul hB1]
      omega
    rw [decodeSignedLE, if_pos (by
        rw [hlast, Nat.mod_eq_of_lt (lt_trans hqlt (by norm_num))]
        exact hqlt),
      decodeUnsignedLE_natToBytesLE, Nat.mod_eq_of_lt (by omega)]
    omega

/-! ### Errors

Python exception classes raised by the module: `TypeError`, `ValueError`,
`LookupError` (unknown codec name), `UnicodeEncodeError` (text that the
chosen codec cannot encode), and `PickleProtocolMismatchError`.  The latter
arises in two distinct places: the opcode-method decorator (with the opcode
name, its minimum protocol, and the active protocol) and directly inside
`_util_push_bytes` (with a fixed message). -/

inductive Err where
  | typeError
  | valueError
  | lookupError
  | unicodeEncodeError
  | protocolMismatchOp (opname : String) (required : Nat) (actual : Nat)
  | protocolMismatchBytes
  deriving DecidableEq, Repr

def Err.isProtocolMismatch : Err → Bool
  | .protocolMismatchOp _ _ _ => true
  | .protocolMismatchBytes => true
  | _ => false

/-! ### Opcode table (source lines 66-169) -/

structure Opcode where
  name : String
  code : List Nat
  proto : Nat
  deriving DecidableEq, Repr

def MARK : Opcode := ⟨"MARK", [40], 0⟩

def STOP : Opcode := ⟨"STOP", [46], 0⟩

def POP : Opcode := ⟨"POP", [48], 0⟩

def DUP : Opcode := ⟨"DUP", [50], 0⟩

def FLOAT : Opcode := ⟨"FLOAT", [70], 0⟩

def INT : Opcode := ⟨"INT", [73], 0⟩

def LONG : Opcode := ⟨"LONG", [76], 0⟩

def NONE : Opcode := ⟨"NONE", [78], 0⟩

def PERSID : Opcode := ⟨"PERSID", [80], 0⟩

def REDUCE : Opcode := ⟨"REDUCE", [82], 0⟩

def STRING : Opcode := ⟨"STRING", [83], 0⟩

def UNICODE : Opcode := ⟨"UNICODE", [86], 0⟩

def APPEND : Opcode := ⟨"APPEND", [97], 0⟩

def BUILD : Opcode := ⟨"BUILD", [98], 0⟩

def GLOBAL : Opcode := ⟨"GLOBAL", [99], 0⟩

def DICT : Opcode := ⟨"DICT", [100], 0⟩

def GET : Opcode := ⟨"GET", [103], 0⟩

def INST : Opcode := ⟨"INST", [105], 0⟩

def LIST : Opcode := ⟨"LIST", [108], 0⟩

def PUT : Opcode := ⟨"PUT", [112], 0⟩

def SETITEM : Opcode := ⟨"SETITEM", [115], 0⟩

def TUPLE : Opcode := ⟨"TUPLE", [116], 0⟩

/-- `TRUE = b'I01\x5cn'`: not an opcode, a byte literal. -/
def TRUE_LIT : List Nat := [73, 48, 49, 10]

/-- `FALSE = b'I00\x5cn'`: not an opcode, a byte literal. -/
def FALSE_LIT : List Nat := [73, 48, 48, 10]

def POP_MARK : Opcode := ⟨"POP_MARK", [49], 1⟩

def BININT : Opcode := ⟨"BININT", [74], 1⟩

def BININT1 : Opcode := ⟨"BININT1", [75], 1⟩

def BININT2 : Opcode := ⟨"BININT2", [77], 1⟩

def BINPERSID : Opcode := ⟨"BINPERSID", [81], 1⟩

def BINSTRING : Opcode := ⟨"BINSTRING", [84], 1⟩

def SHORT_BINSTRING : Opcode := ⟨"SHORT_BINSTRING", [85], 1⟩

def BINUNICODE : Opcode := ⟨"BINUNICODE", [88], 1⟩

def EMPTY_DICT : Opcode := ⟨"EMPTY_DICT", [125], 1⟩

def APPENDS : Opcode := ⟨"APPENDS", [101], 1⟩

def BINGET : Opcode := ⟨"BINGET", [104], 1⟩

def LONG_BINGET : Opcode := ⟨"LONG_BINGET", [106], 1⟩

def EMPTY_LIST : Opcode := ⟨"EMPTY_LIST", [93], 1⟩

def OBJ : Opcode := ⟨"OBJ", [111], 1⟩

def BINPUT : Opcode := ⟨"BINPUT", [113], 1⟩

def LONG_BINPUT : Opcode := ⟨"LONG_BINPUT", [114], 1⟩

def EMPTY_TUPLE : Opcode := ⟨"EMPTY_TUPLE", [41], 1⟩

def SETITEMS : Opcode := ⟨"SETITEMS", [117], 1⟩

def BINFLOAT : Opcode := ⟨"BINFLOAT", [71], 1⟩

def PROTO : Opcode := ⟨"PROTO", [128], 2⟩

def NEWOBJ : Opcode := ⟨"NEWOBJ", [129], 2⟩

def EXT1 : Opcode := ⟨"EXT1", [130], 2⟩

def EXT2 : Opcode := ⟨"EXT2", [131], 2⟩

def EXT4 : Opcode := ⟨"EXT4", [132], 2⟩

def TUPLE1 : Opcode := ⟨"TUPLE1", [133], 2⟩

def TUPLE2 : Opcode := ⟨"TUPLE2", [134], 2⟩

def TUPLE3 : Opcode := ⟨"TUPLE3", [135], 2⟩

def NEWTRUE : Opcode := ⟨"NEWTRUE", [136], 2⟩

def NEWFALSE : Opcode := ⟨"NEWFALSE", [137], 2⟩

def LONG1 : Opcode := ⟨"LONG1", [138], 2⟩

def LONG4 : Opcode := ⟨"LONG4", [139], 2⟩

def BINBYTES : Opcode := ⟨"BINBYTES", [66], 3⟩

def SHORT_BINBYTES : Opcode := ⟨"SHORT_BINBYTES", [67], 3⟩

def SHORT_BINUNICODE : Opcode := ⟨"SHORT_BINUNICODE", [140], 4⟩

def BINUNICODE8 : Opcode := ⟨"BINUNICODE8", [141], 4⟩

def BINBYTES8 : Opcode := ⟨"BINBYTES8", [142], 4⟩

def EMPTY_SET : Opcode := ⟨"EMPTY_SET", [143], 4⟩

def ADDITEMS : Opcode := ⟨"ADDITEMS", [144], 4⟩

def FROZENSET : Opcode := ⟨"FROZENSET", [145], 4⟩

def NEWOBJ_EX : Opcode := ⟨"NEWOBJ_EX", [146], 4⟩

def STACK_GLOBAL : Opcode := ⟨"STACK_GLOBAL", [147], 4⟩

def MEMOIZE : Opcode := ⟨"MEMOIZE", [148], 4⟩

def FRAME : Opcode := ⟨"FRAME", [149], 4⟩

def BYTEARRAY8 : Opcode := ⟨"BYTEARRAY8", [150], 5⟩

def NEXT_BUFFER : Opcode := ⟨"NEXT_BUFFER", [151], 5⟩

def READONLY_BUFFER : Opcode := ⟨"READONLY_BUFFER", [152], 5⟩

def HIGHEST_PROTOCOL : Nat := 5

/-! ### Python value fragments

`PyInt` models a Python argument that passes `isinstance(value, int)`; in
Python, `bool` is a subclass of `int`, so both variants are accepted by the
integer methods, but only `.bool` passes `isinstance(value, bool)`.
`PyByteSeq` models a byte-sequence argument: `bytes` (immutable) or
`bytearray` (mutable, not an instance of `bytes`).  Python `str` arguments
are lists of Unicode code points. -/

inductive PyInt where
  | bool (b : Bool)
  | int (v : Int)
  deriving DecidableEq, Repr

def PyInt.toInt : PyInt → Int
  | .bool b => if b then 1 else 0
  | .int v => v

inductive PyByteSeq where
  | bytes (bs : List Nat)
  | bytearray (bs : List Nat)
  deriving DecidableEq, Repr

def PyByteSeq.data : PyByteSeq → List Nat
  | .bytes bs => bs
  | .bytearray bs => bs

def PyByteSeq.isBytes : PyByteSeq → Bool
  | .bytes _ => true
  | .bytearray _ => false

/-- Decimal digits of a natural number in ASCII, most significant first
(fuel-based so it evaluates by kernel reduction). -/
def decimalDigitsAux : Nat → Nat → List Nat
  | 0, _ => []
  | fuel+1, n => if n < 10 then [48 + n] else decimalDigitsAux fuel (n / 10) ++ [48 + n % 10]

/-- `str(value).encode('ascii')` for a Python `int`. -/
def decimalRepr (v : Int) : List Nat :=
  (if v < 0 then [45] else []) ++ decimalDigitsAux (v.natAbs + 1) v.natAbs

/-- `str(value).encode('ascii')` for a `bool | int` argument: Python renders
a `bool` as the text `True` or `False`. -/
def pyIntRepr : PyInt → List Nat
  | .bool true => [84, 114, 117, 101]
  | .bool false => [70, 97, 108, 115, 101]
  | .int v => decimalRepr v

def isSurrogate (c : Nat) : Bool := 55296 ≤ c && c ≤ 57343

/-- Standard UTF-8 encoding of one code point; with surrogates passed
through this is exactly `str.encode('utf-8', 'surrogatepass')` per
code point. -/
def utf8EncodeChar (c : Nat) : List Nat :=
  if c < 128 then [c]
  else if c < 2048 then [192 + c / 64, 128 + c % 64]
  else if c < 65536 then [224 + c / 4096, 128 + c / 64 % 64, 128 + c % 64]
  else [240 + c / 262144, 128 + c / 4096 % 64, 128 + c / 64 % 64, 128 + c % 64]

def utf8Encode (s : List Nat) : List Nat := (s.map utf8EncodeChar).join

/-- Text encodings passed by name to the string-pushing methods.  `ascii`
and `utf8` are the registry entries exercised by the module's defaults; any
unrecognized name raises `LookupError` before any output is produced. -/
inductive Codec where
  | ascii
  | utf8
  | unknownName
  deriving DecidableEq, Repr

/-- `value.encode(encoding)` (strict error handler). -/
def codecEncode : Codec → List Nat → Except Err (List Nat)
  | .ascii, s => if s.all (fun c => c < 128) then .ok s else .error .unicodeEncodeError
  | .utf8, s =>
    if s.all (fun c => !(isSurrogate c)) then .ok (utf8Encode s) else .error .unicodeEncodeError
  | .unknownName, _ => .error .lookupError

def hexDigit (n : Nat) : Nat := if n < 10 then 48 + n else 87 + n

def hex4 (c : Nat) : List Nat :=
  [hexDigit (c / 4096 % 16), hexDigit (c / 256 % 16), hexDigit (c / 16 % 16), hexDigit (c % 16)]

/-- One code point under the `raw-unicode-escape` codec: code points below
256 are emitted verbatim, BMP code points become a backslash-u escape, and
larger ones a backslash-U escape. -/
def rawUnicodeEscapeChar (c : Nat) : List Nat :=
  if c < 256 then [c]
  else if c < 65536 then [92, 117] ++ hex4 c
  else [92, 85] ++ hex4 (c / 65536) ++ hex4 (c % 65536)

def rawUnicodeEscape (s : List Nat) : List Nat := (s.map rawUnicodeEscapeChar).join

/-- `value.replace(chr t, r)` for a single-character target. -/
def strReplaceChar (t : Nat) (r : List Nat) (s : List Nat) : List Nat :=
  (s.map fun c => if c = t then r else [c]).join

/-! ### Assembler state and emission results

The Python methods mutate `self._payload` only by appending
(`self._payload += ...`) and never read it, so each method is modelled as a
function from its arguments and the (read-only) state to the emitted byte
delta together with an optional raised error.  A raised error keeps the
bytes already appended before the raise (Python semantics for exceptions
thrown mid-method). -/

structure PAState where
  proto : Nat
  verify : Bool
  payload : List Nat
  deriving DecidableEq, Repr

abbrev EmitResult := List Nat × Option Err

/-- The protocol gate installed by `_opcode_method_decorator` on every method
whose name starts with push/build/pop/memo. -/
def gate (st : PAState) (op : Opcode) (body : EmitResult) : EmitResult :=
  if st.verify ∧ st.proto < op.proto then
    ([], some (.protocolMismatchOp op.name op.proto st.proto))
  else body

/-! ### Emission methods (source lines 203-501) -/

def append_raw (data : PyByteSeq) (_st : PAState) : EmitResult :=
  match data with
  | .bytes bs => (bs, none)
  | .bytearray _ => ([], some .typeError)

def assemble (st : PAState) : List Nat := st.payload ++ STOP.code

def push_none (st : PAState) : EmitResult :=
  gate st NONE (NONE.code, none)

def push_false (st : PAState) : EmitResult :=
  gate st NEWFALSE (NEWFALSE.code, none)

def push_true (st : PAState) : EmitResult :=
  gate st NEWTRUE (NEWTRUE.code, none)

def push_int (value : PyInt) (st : PAState) : EmitResult :=
  gate st INT
    (match value with
     | .bool b => (if b then TRUE_LIT else FALSE_LIT, none)
     | .int v => (INT.code ++ decimalRepr v ++ [10], none))

def push_binint (value : PyInt) (st : PAState) : EmitResult :=
  gate st BININT
    (if ¬(-(2 ^ 31) ≤ value.toInt ∧ value.toInt ≤ 2 ^ 31 - 1) then ([], some .valueError)
     else (BININT.code ++ p32 value.toInt, none))

def push_binint1 (value : PyInt) (st : PAState) : EmitResult :=
  gate st BININT1
    (if ¬(0 ≤ value.toInt ∧ value.toInt ≤ 2 ^ 8 - 1) then ([], some .valueError)
     else (BININT1.code ++ p8 value.toInt, none))

def push_binint2 (value : PyInt) (st : PAState) : EmitResult :=
  gate st BININT2
    (if ¬(0 ≤ value.toInt ∧ value.toInt ≤ 2 ^ 16 - 1) then ([], some .valueError)
     else (BININT2.code ++ p16 value.toInt, none))

def push_long (value : PyInt) (st : PAState) : EmitResult :=
  gate st LONG (LONG.code ++ pyIntRepr value ++ [10], none)

def push_long1 (value : PyInt) (st : PAState) : EmitResult :=
  gate st LONG1
    (if 2 ^ 8 ≤ (packSignedLE value.toInt).length then ([], some .valueError)
     else (LONG1.code ++ p8 (packSignedLE value.toInt).length ++ packSignedLE value.toInt, none))

def push_long4 (value : PyInt) (st : PAState) : EmitResult :=
  gate st LONG4
    (if 2 ^ 31 ≤ (packSignedLE value.toInt).length then ([], some .valueError)
     else (LONG4.code ++ p32 (packSignedLE value.toInt).length ++ packSignedLE value.toInt, none))

def push_binstring (value : List Nat) (encoding : Codec) (st : PAState) : EmitResult :=
  gate st BINSTRING
    (match codecEncode encoding value with
     | .error e => ([], some e)
     | .ok value_bytes =>
       if 2 ^ 31 ≤ value_bytes.length then ([], some .valueError)
       else (BINSTRING.code ++ p32 value_bytes.length ++ value_bytes, none))

def push_short_binstring (value : List Nat) (encoding : Codec) (st : PAState) : EmitResult :=
  gate st SHORT_BINSTRING
    (match codecEncode encoding value with
     | .error e => ([], some e)
     | .ok value_bytes =>
       if 2 ^ 8 ≤ value_bytes.length then ([], some .valueError)
       else (SHORT_BINSTRING.code ++ p8 value_bytes.length ++ value_bytes, none))

def push_binbytes (value : PyByteSeq) (st : PAState) : EmitResult :=
  gate st BINBYTES
    (match value with
     | .bytearray _ => ([], some .typeError)
     | .bytes bs =>
       if 2 ^ 32 ≤ bs.length then ([], some .valueError)
       else (BINBYTES.code ++ p32 bs.length ++ bs, none))

def push_binbytes8 (value : PyByteSeq) (st : PAState) : EmitResult :=
  gate st BINBYTES8
    (match value with
     | .bytearray _ => ([], some .typeError)
     | .bytes bs =>
       if 2 ^ 64 ≤ bs.length then ([], some .valueError)
       else (BINBYTES8.code ++ p64 bs.length ++ bs, none))

def push_short_binbytes (value : PyByteSeq) (st : PAState) : EmitResult :=
  gate st SHORT_BINBYTES
    (match value with
     | .bytearray _ => ([], some .typeError)
     | .bytes bs =>
       if 2 ^ 8 ≤ bs.length then ([], some .valueError)
       else (SHORT_BINBYTES.code ++ p8 bs.length ++ bs, none))

def push_bytearray8 (value : PyByteSeq) (st : PAState) : EmitResult :=
  gate st BYTEARRAY8
    (if 2 ^ 64 ≤ value.data.length then ([], some .valueError)
     else (BYTEARRAY8.code ++ p64 value.data.length ++ value.data, none))

def push_unicode (value : List Nat) (st : PAState) : EmitResult :=
  gate st UNICODE
    (let v1 := strReplaceChar 92 [92, 117, 48, 48, 53, 99] value
     let v2 := strReplaceChar 0 [92, 117, 48, 48, 48, 48] v1
     let v3 := strReplaceChar 10 [92, 117, 48, 48, 48, 97] v2
     let v4 := strReplaceChar 13 [92, 117, 48, 48, 48, 100] v3
     let v5 := strReplaceChar 26 [92, 117, 48, 48, 49, 97] v4
     (UNICODE.code ++ rawUnicodeEscape v5 ++ [10], none))

def push_binunicode (value : List Nat) (st : PAState) : EmitResult :=
  gate st BINUNICODE
    (if 2 ^ 32 ≤ (utf8Encode value).length then ([], some .valueError)
     else (BINUNICODE.code ++ p32 (utf8Encode value).length ++ utf8Encode value, none))

def push_binunicode8 (value : List Nat) (st : PAState) : EmitResult :=
  gate st BINUNICODE8
    (if 2 ^ 64 ≤ (utf8Encode value).length then ([], some .valueError)
     else (BINUNICODE8.code ++ p64 (utf8Encode value).length ++ utf8Encode value, none))

def push_short_binunicode (value : List Nat) (st : PAState) : EmitResult :=
  gate st SHORT_BINUNICODE
    (if 2 ^ 8 ≤ (utf8Encode value).length then ([], some .valueError)
     else (SHORT_BINUNICODE.code ++ p8 (utf8Encode value).length ++ utf8Encode value, none))

def push_empty_tuple (st : PAState) : EmitResult :=
  gate st EMPTY_TUPLE (EMPTY_TUPLE.code, none)

def push_empty_list (st : PAState) : EmitResult :=
  gate st EMPTY_LIST (EMPTY_LIST.code, none)

def push_empty_dict (st : PAState) : EmitResult :=
  gate st EMPTY_DICT (EMPTY_DICT.code, none)

def push_empty_set (st : PAState) : EmitResult :=
  gate st EMPTY_SET (EMPTY_SET.code, none)

/-- `push_global` appends the `GLOBAL` opcode byte before encoding its
arguments, so an encoding failure leaves a partial write. -/
def push_global (module nm : List Nat) (st : PAState) : EmitResult :=
  gate st GLOBAL
    (match codecEncode .utf8 module with
     | .error e => (GLOBAL.code, some e)
     | .ok mb =>
       match codecEncode .utf8 nm with
       | .error e => (GLOBAL.code ++ mb ++ [10], some e)
       | .ok nb => (GLOBAL.code ++ mb ++ [10] ++ nb ++ [10], none))

def push_mark (st : PAState) : EmitResult :=
  gate st MARK (MARK.code, none)

def build_tuple (st : PAState) : EmitResult :=
  gate st TUPLE (TUPLE.code, none)

def build_tuple1 (st : PAState) : EmitResult :=
  gate st TUPLE1 (TUPLE1.code, none)

def build_tuple2 (st : PAState) : EmitResult :=
  gate st TUPLE2 (TUPLE2.code, none)

def build_tuple3 (st : PAState) : EmitResult :=
  gate st TUPLE3 (TUPLE3.code, none)

def build_list (st : PAState) : EmitResult :=
  gate st LIST (LIST.code, none)

def build_dict (st : PAState) : EmitResult :=
  gate st DICT (DICT.code, none)

def build_frozenset (st : PAState) : EmitResult :=
  gate st FROZENSET (FROZENSET.code, none)

def build_append (st : PAState) : EmitResult :=
  gate st APPEND (APPEND.code, none)

def build_appends (st : PAState) : EmitResult :=
  gate st APPENDS (APPENDS.code, none)

def build_setitem (st : PAState) : EmitResult :=
  gate st SETITEM (SETITEM.code, none)

def build_setitems (st : PAState) : EmitResult :=
  gate st SETITEMS (SETITEMS.code, none)

def build_additems (st : PAState) : EmitResult :=
  gate st ADDITEMS (ADDITEMS.code, none)

/-- Like `push_global`, `build_inst` appends the `INST` opcode byte before
encoding its arguments (here with the `ascii` codec). -/
def build_inst (module nm : List Nat) (st : PAState) : EmitResult :=
  gate st INST
    (match codecEncode .ascii module with
     | .error e => (INST.code, some e)
     | .ok mb =>
       match codecEncode .ascii nm with
       | .error e => (INST.code ++ mb ++ [10], some e)
       | .ok nb => (INST.code ++ mb ++ [10] ++ nb ++ [10], none))

def build_obj (st : PAState) : EmitResult :=
  gate st OBJ (OBJ.code, none)

def build_newobj (st : PAState) : EmitResult :=
  gate st NEWOBJ (NEWOBJ.code, none)

def build_newobj_ex (st : PAState) : EmitResult :=
  gate st NEWOBJ_EX (NEWOBJ_EX.code, none)

def build_stack_global (st : PAState) : EmitResult :=
  gate st STACK_GLOBAL (STACK_GLOBAL.code, none)

def build_reduce (st : PAState) : EmitResult :=
  gate st REDUCE (REDUCE.code, none)

def build_build (st : PAState) : EmitResult :=
  gate st BUILD (BUILD.code, none)

def build_dup (st : PAState) : EmitResult :=
  gate st DUP (DUP.code, none)

def pop (st : PAState) : EmitResult :=
  gate st POP (POP.code, none)

def pop_mark (st : PAState) : EmitResult :=
  gate st POP_MARK (POP_MARK.code, none)

def memo_get (index : PyInt) (st : PAState) : EmitResult :=
  gate st GET
    (if index.toInt < 0 then ([], some .valueError)
     else (GET.code ++ pyIntRepr index ++ [10], none))

def memo_binget (index : PyInt) (st : PAState) : EmitResult :=
  gate st BINGET
    (if ¬(0 ≤ index.toInt ∧ index.toInt ≤ 2 ^ 8 - 1) then ([], some .valueError)
     else (BINGET.code ++ p8 index.toInt, none))

def memo_long_binget (index : PyInt) (st : PAState) : EmitResult :=
  gate st LONG_BINGET
    (if ¬(0 ≤ index.toInt ∧ index.toInt ≤ 2 ^ 32 - 1) then ([], some .valueError)
     else (LONG_BINGET.code ++ p32 index.toInt, none))

def memo_put (index : PyInt) (st : PAState) : EmitResult :=
  gate st PUT
    (if index.toInt < 0 then ([], some .valueError)
     else (PUT.code ++ pyIntRepr index ++ [10], none))

def memo_binput (index : PyInt) (st : PAState) : EmitResult :=
  gate st BINPUT
    (if ¬(0 ≤ index.toInt ∧ index.toInt ≤ 2 ^ 8 - 1) then ([], some .valueError)
     else (BINPUT.code ++ p8 index.toInt, none))

def memo_long_binput (index : PyInt) (st : PAState) : EmitResult :=
  gate st LONG_BINPUT
    (if ¬(0 ≤ index.toInt ∧ index.toInt ≤ 2 ^ 32 - 1) then ([], some .valueError)
     else (LONG_BINPUT.code ++ p32 index.toInt, none))

def memo_memoize (st : PAState) : EmitResult :=
  gate st MEMOIZE (MEMOIZE.code, none)

/-! ### ValueEncoder (`util_push` and helpers, source lines 503-678)

The `_util_push_*` helpers are not opcode methods (their names do not start
with push/build/pop/memo) and are therefore not wrapped by the protocol
gate; they call the wrapped methods.  `PyVal` is the closed set of value
shapes supported by `util_push`; containers are mutual inductives so the
recursion is structural. -/

mutual

inductive PyVal where
  | pynone : PyVal
  | pybool (b : Bool) : PyVal
  | pyint (v : Int) : PyVal
  | pybytes (bs : List Nat) : PyVal
  | pystr (s : List Nat) : PyVal
  | pytuple (xs : PyValList) : PyVal
  | pylist (xs : PyValList) : PyVal
  | pydict (kvs : PyPairList) : PyVal

inductive PyValList where
  | nil : PyValList
  | cons (x : PyVal) (xs : PyValList) : PyValList

inductive PyPairList where
  | nil : PyPairList
  | cons (k v : PyVal) (xs : PyPairList) : PyPairList

end

def PyValList.length : PyValList → Nat
  | .nil => 0
  | .cons _ xs => xs.length + 1

/-- Sequencing of two emission steps: an error in the first step aborts
(Python exception propagation), keeping the bytes appended so far. -/
def andThen (r : EmitResult) (k : Unit → EmitResult) : EmitResult :=
  match r with
  | (bs, some e) => (bs, some e)
  | (bs, none) =>
    let r2 := k ()
    (bs ++ r2.1, r2.2)

def util_push_bool (value : Bool) (st : PAState) : EmitResult :=
  if st.proto < 2 then push_int (.bool value) st
  else if value then push_true st else push_false st

def util_push_int (value : PyInt) (st : PAState) : EmitResult :=
  if st.proto = 0 then push_int value st
  else if 0 ≤ value.toInt ∧ value.toInt ≤ 2 ^ 8 - 1 then push_binint1 value st
  else if 0 ≤ value.toInt ∧ value.toInt ≤ 2 ^ 16 - 1 then push_binint2 value st
  else if -(2 ^ 31) ≤ value.toInt ∧ value.toInt ≤ 2 ^ 31 - 1 then push_binint value st
  else if st.proto = 1 then push_int value st
  else if -(2 ^ 2039) ≤ value.toInt ∧ value.toInt ≤ 2 ^ 2039 - 1 then push_long1 value st
  else push_long4 value st

/-- `_util_push_bytes` raises `PickleProtocolMismatchError` directly for
protocol < 3, before and independently of the `verify` flag. -/
def util_push_bytes (value : PyByteSeq) (st : PAState) : EmitResult :=
  match value with
  | .bytearray _ => ([], some .typeError)
  | .bytes bs =>
    if st.proto < 3 then ([], some .protocolMismatchBytes)
    else if bs.length < 2 ^ 8 then push_short_binbytes (.bytes bs) st
    else if bs.length < 2 ^ 32 then push_binbytes (.bytes bs) st
    else if st.proto < 4 then ([], some .valueError)
    else push_binbytes8 (.bytes bs) st

def util_push_unicode (value : List Nat) (st : PAState) : EmitResult :=
  if st.proto = 0 then push_unicode value st
  else
    if st.proto < 4 then
      if (utf8Encode value).length < 2 ^ 32 then push_binunicode value st
      else push_unicode value st
    else if (utf8Encode value).length < 2 ^ 8 then push_short_binunicode value st
    else if (utf8Encode value).length < 2 ^ 32 then push_binunicode value st
    else push_binunicode8 value st

mutual

def util_push : PyVal → PAState → EmitResult
  | .pynone, st => push_none st
  | .pybool b, st => util_push_bool b st
  | .pyint v, st => util_push_int (.int v) st
  | .pybytes bs, st => util_push_bytes (.bytes bs) st
  | .pystr s, st => util_push_unicode s st
  | .pytuple xs, st =>
    match xs with
    | .nil =>
      if st.proto = 0 then andThen (push_mark st) (fun _ => build_tuple st)
      else push_empty_tuple st
    | .cons y ys =>
      if 2 ≤ st.proto ∧ (PyValList.cons y ys).length ≤ 3 then
        andThen (util_push_seq (.cons y ys) st) (fun _ =>
          match (PyValList.cons y ys).length with
          | 1 => build_tuple1 st
          | 2 => build_tuple2 st
          | 3 => build_tuple3 st
          | _ => build_tuple st)
      else
        andThen (push_mark st) (fun _ =>
          andThen (util_push_seq (.cons y ys) st) (fun _ => build_tuple st))
  | .pylist xs, st =>
    match xs with
    | .nil =>
      if st.proto = 0 then andThen (push_mark st) (fun _ => build_list st)
      else push_empty_list st
    | .cons y ys =>
      andThen (push_mark st) (fun _ =>
        andThen (util_push_seq (.cons y ys) st) (fun _ => build_list st))
  | .pydict kvs, st =>
    match kvs with
    | .nil =>
      if st.proto = 0 then andThen (push_mark st) (fun _ => build_dict st)
      else push_empty_dict st
    | .cons k v rest =>
      andThen (push_mark st) (fun _ =>
        andThen (util_push_pairs (.cons k v rest) st) (fun _ => build_dict st))

def util_push_seq : PyValList → PAState → EmitResult
  | .nil, _ => ([], none)
  | .cons x xs, st => andThen (util_push x st) (fun _ => util_push_seq xs st)

def util_push_pairs : PyPairList → PAState → EmitResult
  | .nil, _ => ([], none)
  | .cons k v xs, st =>
    andThen (util_push k st) (fun _ =>
      andThen (util_push v st) (fun _ => util_push_pairs xs st))

end

def util_memo_get (index : PyInt) (st : PAState) : EmitResult :=
  if index.toInt < 0 then ([], some .valueError)
  else if st.proto = 0 then memo_get index st
  else if 0 ≤ index.toInt ∧ index.toInt ≤ 2 ^ 8 - 1 then memo_binget index st
  else if 0 ≤ index.toInt ∧ index.toInt ≤ 2 ^ 32 - 1 then memo_long_binget index st
  else memo_get index st

def util_memo_put (index : PyInt) (st : PAState) : EmitResult :=
  if index.toInt < 0 then ([], some .valueError)
  else if st.proto = 0 then memo_put index st
  else if 0 ≤ index.toInt ∧ index.toInt ≤ 2 ^ 8 - 1 then memo_binput index st
  else if 0 ≤ index.toInt ∧ index.toInt ≤ 2 ^ 32 - 1 then memo_long_binput index st
  else memo_put index st

/-! ### Construction (source `__init__`, lines 174-192) -/

/-- `PickleAssembler(proto, verify)`.  `proto` passes `isinstance(int)` for
both `bool` and `int` (so `True` is a valid protocol and compares as `1`),
then is range checked; `verify` must pass `isinstance(bool)` exactly, so the
integer `1` is rejected with `TypeError`.  For protocol >= 2 the `PROTO`
header and the protocol byte are written immediately. -/
def mkAssembler (proto : PyInt) (verify : PyInt) : Except Err PAState :=
  if ¬(0 ≤ proto.toInt ∧ proto.toInt ≤ (HIGHEST_PROTOCOL : Int)) then .error .valueError
  else
    match verify with
    | .int _ => .error .typeError
    | .bool b =>
      .ok { proto := proto.toInt.toNat, verify := b,
            payload := if 2 ≤ proto.toInt then PROTO.code ++ p8 proto.toInt else [] }

/-! ### Deep-embedded method calls

`Call` enumerates one invocation of each modelled public method together
with its arguments; `exec` dispatches and applies the emitted delta to the
append-only payload.  (`push_float`, `push_binfloat` and `push_string` are
not modelled: their output goes through the host language's floating-point
or `repr` text rendering.) -/

inductive Call where
  | push_none
  | push_false
  | push_true
  | push_int (value : PyInt)
  | push_binint (value : PyInt)
  | push_binint1 (value : PyInt)
  | push_binint2 (value : PyInt)
  | push_long (value : PyInt)
  | push_long1 (value : PyInt)
  | push_long4 (value : PyInt)
  | push_binstring (value : List Nat) (encoding : Codec)
  | push_short_binstring (value : List Nat) (encoding : Codec)
  | push_binbytes (value : PyByteSeq)
  | push_binbytes8 (value : PyByteSeq)
  | push_short_binbytes (value : PyByteSeq)
  | push_bytearray8 (value : PyByteSeq)
  | push_unicode (value : List Nat)
  | push_binunicode (value : List Nat)
  | push_binunicode8 (value : List Nat)
  | push_short_binunicode (value : List Nat)
  | push_empty_tuple
  | push_empty_list
  | push_empty_dict
  | push_empty_set
  | push_global (module nm : List Nat)
  | push_mark
  | build_tuple
  | build_tuple1
  | build_tuple2
  | build_tuple3
  | build_list
  | build_dict
  | build_frozenset
  | build_append
  | build_appends
  | build_setitem
  | build_setitems
  | build_additems
  | build_inst (module nm : List Nat)
  | build_obj
  | build_newobj
  | build_newobj_ex
  | build_stack_global
  | build_reduce
  | build_build
  | build_dup
  | pop
  | pop_mark
  | memo_get (index : PyInt)
  | memo_binget (index : PyInt)
  | memo_long_binget (index : PyInt)
  | memo_put (index : PyInt)
  | memo_binput (index : PyInt)
  | memo_long_binput (index : PyInt)
  | memo_memoize
  | append_raw (data : PyByteSeq)
  | util_push (value : PyVal)
  | util_memo_get (index : PyInt)
  | util_memo_put (index : PyInt)

def emitOf : Call → PAState → EmitResult
  | .push_none, st => push_none st
  | .push_false, st => push_false st
  | .push_true, st => push_true st
  | .push_int v, st => push_int v st
  | .push_binint v, st => push_binint v st
  | .push_binint1 v, st => push_binint1 v st
  | .push_binint2 v, st => push_binint2 v st
  | .push_long v, st => push_long v st
  | .push_long1 v, st => push_long1 v st
  | .push_long4 v, st => push_long4 v st
  | .push_binstring v e, st => push_binstring v e st
  | .push_short_binstring v e, st => push_short_binstring v e st
  | .push_binbytes v, st => push_binbytes v st
  | .push_binbytes8 v, st => push_binbytes8 v st
  | .push_short_binbytes v, st => push_short_binbytes v st
  | .push_bytearray8 v, st => push_bytearray8 v st
  | .push_unicode v, st => push_unicode v st
  | .push_binunicode v, st => push_binunicode v st
  | .push_binunicode8 v, st => push_binunicode8 v st
  | .push_short_binunicode v, st => push_short_binunicode v st
  | .push_empty_tuple, st => push_empty_tuple st
  | .push_empty_list, st => push_empty_list st
  | .push_empty_dict, st => push_empty_dict st
  | .push_empty_set, st => push_empty_set st
  | .push_global m n, st => push_global m n st
  | .push_mark, st => push_mark st
  | .build_tuple, st => build_tuple st
  | .build_tuple1, st => build_tuple1 st
  | .build_tuple2, st => build_tuple2 st
  | .build_tuple3, st => build_tuple3 st
  | .build_list, st => build_list st
  | .build_dict, st => build_dict st
  | .build_frozenset, st => build_frozenset st
  | .build_append, st => build_append st
  | .build_appends, st => build_appends st
  | .build_setitem, st => build_setitem st
  | .build_setitems, st => build_setitems st
  | .build_additems, st => build_additems st
  | .build_inst m n, st => build_inst m n st
  | .build_obj, st => build_obj st
  | .build_newobj, st => build_newobj st
  | .build_newobj_ex, st => build_newobj_ex st
  | .build_stack_global, st => build_stack_global st
  | .build_reduce, st => build_reduce st
  | .build_build, st => build_build st
  | .build_dup, st => build_dup st
  | .pop, st => pop st
  | .pop_mark, st => pop_mark st
  | .memo_get i, st => memo_get i st
  | .memo_binget i, st => memo_binget i st
  | .memo_long_binget i, st => memo_long_binget i st
  | .memo_put i, st => memo_put i st
  | .memo_binput i, st => memo_binput i st
  | .memo_long_binput i, st => memo_long_binput i st
  | .memo_memoize, st => memo_memoize st
  | .append_raw d, st => append_raw d st
  | .util_push v, st => util_push v st
  | .util_memo_get i, st => util_memo_get i st
  | .util_memo_put i, st => util_memo_put i st

/-- Execute one method call against an assembler state: append the emitted
bytes and surface the optional error. -/
def exec (c : Call) (st : PAState) : PAState × Option Err :=
  ({ st with payload := st.payload ++ (emitOf c st).1 }, (emitOf c st).2)

/-- Run a sequence of calls, threading the state (any raised errors are
assumed caught by the caller, who continues with the same instance). -/
def runCalls : List Call → PAState → PAState
  | [], st => st
  | c :: cs, st => runCalls cs (exec c st).1

/-- Mirror of `_is_opcode_method`: the methods whose names start with
push/build/pop/memo, i.e. everything except `append_raw` and the
`util_*` conveniences. -/
def isOpcodeCall : Call → Bool
  | .append_raw _ => false
  | .util_push _ => false
  | .util_memo_get _ => false
  | .util_memo_put _ => false
  | _ => true

/-- Mirror of `_method_name_to_opcode`: the opcode governing each opcode
method (meaningless default for the unwrapped methods). -/
def opcodeOf : Call → Opcode
  | .push_none => NONE
  | .push_false => NEWFALSE
  | .push_true => NEWTRUE
  | .push_int _ => INT
  | .push_binint _ => BININT
  | .push_binint1 _ => BININT1
  | .push_binint2 _ => BININT2
  | .push_long _ => LONG
  | .push_long1 _ => LONG1
  | .push_long4 _ => LONG4
  | .push_binstring _ _ => BINSTRING
  | .push_short_binstring _ _ => SHORT_BINSTRING
  | .push_binbytes _ => BINBYTES
  | .push_binbytes8 _ => BINBYTES8
  | .push_short_binbytes _ => SHORT_BINBYTES
  | .push_bytearray8 _ => BYTEARRAY8
  | .push_unicode _ => UNICODE
  | .push_binunicode _ => BINUNICODE
  | .push_binunicode8 _ => BINUNICODE8
  | .push_short_binunicode _ => SHORT_BINUNICODE
  | .push_empty_tuple => EMPTY_TUPLE
  | .push_empty_list => EMPTY_LIST
  | .push_empty_dict => EMPTY_DICT
  | .push_empty_set => EMPTY_SET
  | .push_global _ _ => GLOBAL
  | .push_mark => MARK
  | .build_tuple => TUPLE
  | .build_tuple1 => TUPLE1
  | .build_tuple2 => TUPLE2
  | .build_tuple3 => TUPLE3
  | .build_list => LIST
  | .build_dict => DICT
  | .build_frozenset => FROZENSET
  | .build_append => APPEND
  | .build_appends => APPENDS
  | .build_setitem => SETITEM
  | .build_setitems => SETITEMS
  | .build_additems => ADDITEMS
  | .build_inst _ _ => INST
  | .build_obj => OBJ
  | .build_newobj => NEWOBJ
  | .build_newobj_ex => NEWOBJ_EX
  | .build_stack_global => STACK_GLOBAL
  | .build_reduce => REDUCE
  | .build_build => BUILD
  | .build_dup => DUP
  | .pop => POP
  | .pop_mark => POP_MARK
  | .memo_get _ => GET
  | .memo_binget _ => BINGET
  | .memo_long_binget _ => LONG_BINGET
  | .memo_put _ => PUT
  | .memo_binput _ => BINPUT
  | .memo_long_binput _ => LONG_BINPUT
  | .memo_memoize => MEMOIZE
  | .append_raw _ => ⟨"", [], 0⟩
  | .util_push _ => ⟨"", [], 0⟩
  | .util_memo_get _ => ⟨"", [], 0⟩
  | .util_memo_put _ => ⟨"", [], 0⟩

/-- The calls whose body writes the opcode byte before validating further
arguments (`build_inst` and `push_global`). -/
def isModNameCall : Call → Bool
  | .push_global _ _ => true
  | .build_inst _ _ => true
  | _ => false

/-- Arguments that pass every non-protocol check of the method (ranges,
byte-sequence kind, encodability). -/
def validArgs : Call → Bool
  | .push_binint v => decide (-(2 ^ 31) ≤ v.toInt ∧ v.toInt ≤ 2 ^ 31 - 1)
  | .push_binint1 v => decide (0 ≤ v.toInt ∧ v.toInt ≤ 2 ^ 8 - 1)
  | .push_binint2 v => decide (0 ≤ v.toInt ∧ v.toInt ≤ 2 ^ 16 - 1)
  | .push_long1 v => decide ((packSignedLE v.toInt).length < 2 ^ 8)
  | .push_long4 v => decide ((packSignedLE v.toInt).length < 2 ^ 31)
  | .push_binstring v e =>
    match codecEncode e v with
    | .ok bs => decide (bs.length < 2 ^ 31)
    | .error _ => false
  | .push_short_binstring v e =>
    match codecEncode e v with
    | .ok bs => decide (bs.length < 2 ^ 8)
    | .error _ => false
  | .push_binbytes v => v.isBytes && decide (v.data.length < 2 ^ 32)
  | .push_binbytes8 v => v.isBytes && decide (v.data.length < 2 ^ 64)
  | .push_short_binbytes v => v.isBytes && decide (v.data.length < 2 ^ 8)
  | .push_bytearray8 v => decide (v.data.length < 2 ^ 64)
  | .push_binunicode v => decide ((utf8Encode v).length < 2 ^ 32)
  | .push_binunicode8 v => decide ((utf8Encode v).length < 2 ^ 64)
  | .push_short_binunicode v => decide ((utf8Encode v).length < 2 ^ 8)
  | .push_global m n => (codecEncode .utf8 m).toBool && (codecEncode .utf8 n).toBool
  | .build_inst m n => (codecEncode .ascii m).toBool && (codecEncode .ascii n).toBool
  | .memo_get i => decide (0 ≤ i.toInt)
  | .memo_binget i => decide (0 ≤ i.toInt ∧ i.toInt ≤ 2 ^ 8 - 1)
  | .memo_long_binget i => decide (0 ≤ i.toInt ∧ i.toInt ≤ 2 ^ 32 - 1)
  | .memo_put i => decide (0 ≤ i.toInt)
  | .memo_binput i => decide (0 ≤ i.toInt ∧ i.toInt ≤ 2 ^ 8 - 1)
  | .memo_long_binput i => decide (0 ≤ i.toInt ∧ i.toInt ≤ 2 ^ 32 - 1)
  | .append_raw d => d.isBytes
  | _ => true

/-! ### Gate lemmas -/

theorem gate_pass {st : PAState} {op : Opcode}
    (h : st.verify = false ∨ op.proto ≤ st.proto) (body : EmitResult) :
    gate st op body = body := by
  unfold gate
  rw [if_neg]
  rintro ⟨h1, h2⟩
  rcases h with h | h
  · rw [h] at h1
    simp at h1
  · omega

theorem gate_fail {st : PAState} {op : Opcode}
    (hv : st.verify = true) (hp : st.proto < op.proto) (body : EmitResult) :
    gate st op body = ([], some (.protocolMismatchOp op.name op.proto st.proto)) := by
  unfold gate
  rw [if_pos ⟨by rw [hv], hp⟩]

/-! ### Claim theorems -/

/-- C2: `pack(x, endian='<', signed=True)` (here `packSignedLE`) implements
the minimal little-endian two's-complement encoding: it decodes back to `x`,
its length is at most `k` exactly when `x` lies in the signed `k`-byte range
`[-(128 * 256^(k-1)), 128 * 256^(k-1) - 1]` (so the length is minimal), and
the concrete values `0, -256, 255, -128, -129` pack to
` `, `00 ff`, `ff 00`, `80`, `7f ff` respectively. -/
theorem C2_pack_signed_minimal :
    (packSignedLE 0 = [] ∧ packSignedLE (-256) = [0, 255] ∧ packSignedLE 255 = [255, 0] ∧
      packSignedLE (-128) = [128] ∧ packSignedLE (-129) = [127, 255]) ∧
    (∀ x : Int, decodeSignedLE (packSignedLE x) = x) ∧
    (∀ x : Int, ∀ k : Nat, 1 ≤ k →
      ((packSignedLE x).length ≤ k ↔
        -(128 * (256 : Int) ^ (k - 1)) ≤ x ∧ x < 128 * (256 : Int) ^ (k - 1))) :=
  ⟨⟨by decide, by decide, by decide, by decide, by decide⟩,
    decodeSignedLE_packSignedLE, packSignedLE_length_le_iff⟩

theorem C2_witness :
    decodeSignedLE (packSignedLE (-129)) = -129 ∧
    ((packSignedLE (-129)).length ≤ 2 ↔
      -(128 * (256 : Int) ^ (2 - 1)) ≤ -129 ∧ (-129 : Int) < 128 * (256 : Int) ^ (2 - 1)) :=
  ⟨C2_pack_signed_minimal.2.1 (-129), C2_pack_signed_minimal.2.2 (-129) 2 (by norm_num)⟩

theorem pow2039_eq : (128 : Int) * 256 ^ 254 = 2 ^ 2039 := by
  rw [show (256 : Int) = 2 ^ 8 by norm_num, ← pow_mul,
    show (128 : Int) = 2 ^ 7 by norm_num, ← pow_add]

theorem packSignedLE_length_lt_256_iff (value : Int) :
    (packSignedLE value).length < 2 ^ 8 ↔
      -(2 ^ 2039) ≤ value ∧ value ≤ 2 ^ 2039 - 1 := by
  have hiff0 := packSignedLE_length_le_iff value 255 (by norm_num)
  rw [pow2039_eq] at hiff0
  rw [show ((packSignedLE value).length < 2 ^ 8) = ((packSignedLE value).length ≤ 255)
    from propext (by omega), hiff0]
  constructor
  · rintro ⟨h1, h2⟩
    exact ⟨h1, by omega⟩
  · rintro ⟨h1, h2⟩
    exact ⟨h1, by omega⟩

/-- C6: `push_long1` succeeds exactly when the minimal signed packing of the
value fits in at most 255 bytes, which happens exactly for values in
`[-(2^2039), 2^2039 - 1]`; on success it appends the `LONG1` opcode, the
packed length as one byte, and the packed bytes; out of range it raises
`ValueError` (`OutOfRange`) and appends nothing.  The protocol gate is
assumed passed (`verify` off, or protocol >= 2). -/
theorem C6_push_long1 (value : Int) (st : PAState)
    (hready : st.verify = false ∨ 2 ≤ st.proto) :
    ((packSignedLE value).length < 2 ^ 8 ↔
      -(2 ^ 2039) ≤ value ∧ value ≤ 2 ^ 2039 - 1) ∧
    (-(2 ^ 2039) ≤ value ∧ value ≤ 2 ^ 2039 - 1 →
      push_long1 (.int value) st =
        (LONG1.code ++ p8 ((packSignedLE value).length : Int) ++ packSignedLE value, none)) ∧
    (¬(-(2 ^ 2039) ≤ value ∧ value ≤ 2 ^ 2039 - 1) →
      push_long1 (.int value) st = ([], some .valueError)) := by
  have hiff := packSignedLE_length_lt_256_iff value
  refine ⟨hiff, ?_, ?_⟩
  · intro hin
    rw [push_long1, gate_pass (by simpa using hready)]
    rw [if_neg (by have := hiff.mpr hin; simp only [PyInt.toInt]; omega)]
    rfl
  · intro hout
    rw [push_long1, gate_pass (by simpa using hready)]
    rw [if_pos (by
      have : ¬((packSignedLE value).length < 2 ^ 8) := fun hc => hout (hiff.mp hc)
      simp only [PyInt.toInt]
      omega)]

theorem C6_witness :
    ((packSignedLE 3).length < 2 ^ 8 ↔
      -(2 ^ 2039 : Int) ≤ 3 ∧ (3 : Int) ≤ 2 ^ 2039 - 1) ∧
    push_long1 (.int 3) ⟨2, true, []⟩ =
      (LONG1.code ++ p8 ((packSignedLE 3).length : Int) ++ packSignedLE 3, none) := by
  have hpos : (0 : Int) < 2 ^ 2039 := by positivity
  have h := C6_push_long1 3 ⟨2, true, []⟩ (Or.inr (by norm_num))
  exact ⟨h.1, h.2.1 ⟨by omega, by omega⟩⟩

/-- C1: integer auto-selection in `util_push`/`_util_push_int`.  With
verification enabled: at protocol >= 2, values in `[0, 255]` emit `BININT1`,
`[256, 65535]` emit `BININT2`, the rest of the signed 32-bit range emits
`BININT`, and values outside the signed 32-bit range but within
`[-(2^2039), 2^2039 - 1]` emit `LONG1`; at protocol 0 any integer emits the
textual `INT` operation, as does an integer outside the signed 32-bit range
at protocol 1. -/
theorem C1_util_push_int_selection (st : PAState) (hv : st.verify = true) (value : Int) :
    (2 ≤ st.proto →
      ((0 ≤ value ∧ value ≤ 255 →
        util_push (.pyint value) st = (BININT1.code ++ p8 value, none)) ∧
       (256 ≤ value ∧ value ≤ 65535 →
        util_push (.pyint value) st = (BININT2.code ++ p16 value, none)) ∧
       ((65536 ≤ value ∧ value ≤ 2 ^ 31 - 1) ∨ (-(2 ^ 31) ≤ value ∧ value ≤ -1) →
        util_push (.pyint value) st = (BININT.code ++ p32 value, none)) ∧
       ((value < -(2 ^ 31) ∨ 2 ^ 31 ≤ value) ∧ -(2 ^ 2039) ≤ value ∧ value ≤ 2 ^ 2039 - 1 →
        util_push (.pyint value) st =
          (LONG1.code ++ p8 ((packSignedLE value).length : Int) ++ packSignedLE value, none)))) ∧
    (st.proto = 0 →
      util_push (.pyint value) st = (INT.code ++ decimalRepr value ++ [10], none)) ∧
    (st.proto = 1 → (value < -(2 ^ 31) ∨ 2 ^ 31 ≤ value) →
      util_push (.pyint value) st = (INT.code ++ decimalRepr value ++ [10], none)) := by
  have hu : util_push (.pyint value) st = util_push_int (.int value) st := by
    simp [util_push]
  refine ⟨fun hp2 => ⟨?_, ?_, ?_, ?_⟩, fun hp0 => ?_, fun hp1 hout => ?_⟩
  · rintro ⟨h1, h2⟩
    rw [hu]
    simp only [util_push_int, PyInt.toInt]
    rw [if_neg (by omega), if_pos (by omega)]
    rw [push_binint1, gate_pass (Or.inr (show BININT1.proto ≤ st.proto by
      simp only [BININT1]; omega))]
    rw [if_neg (by simp only [PyInt.toInt]; omega)]
    rfl
  · rintro ⟨h1, h2⟩
    rw [hu]
    simp only [util_push_int, PyInt.toInt]
    rw [if_neg (by omega), if_neg (by omega), if_pos (by omega)]
    rw [push_binint2, gate_pass (Or.inr (show BININT2.proto ≤ st.proto by
      simp only [BININT2]; omega))]
    rw [if_neg (by simp only [PyInt.toInt]; omega)]
    rfl
  · intro hcase
    rw [hu]
    simp only [util_push_int, PyInt.toInt]
    rw [if_neg (by omega), if_neg (by omega), if_neg (by omega), if_pos (by omega)]
    rw [push_binint, gate_pass (Or.inr (show BININT.proto ≤ st.proto by
      simp only [BININT]; omega))]
    rw [if_neg (by simp only [PyInt.toInt]; omega)]
    rfl
  · rintro ⟨hout, hin1, hin2⟩
    rw [hu]
    simp only [util_push_int, PyInt.toInt]
    rw [if_neg (by omega), if_neg (by omega), if_neg (by omega), if_neg (by omega),
      if_neg (by omega), if_pos (by omega)]
    rw [push_long1, gate_pass (Or.inr (show LONG1.proto ≤ st.proto by
      simp only [LONG1]; omega))]
    have hlen := (packSignedLE_length_lt_256_iff value).mpr ⟨hin1, hin2⟩
    rw [if_neg (by simp only [PyInt.toInt]; omega)]
    rfl
  · rw [hu]
    simp only [util_push_int, PyInt.toInt]
    rw [if_pos hp0, push_int, gate_pass (Or.inr (show INT.proto ≤ st.proto by
      simp only [INT]; omega))]
  · rw [hu]
    simp only [util_push_int, PyInt.toInt]
    rw [if_neg (by omega), if_neg (by omega), if_neg (by omega), if_neg (by omega),
      if_pos hp1]
    rw [push_int, gate_pass (Or.inr (show INT.proto ≤ st.proto by
      simp only [INT]; omega))]

theorem C1_witness :
    util_push (.pyint 255) ⟨2, true, []⟩ = (BININT1.code ++ p8 255, none) ∧
    util_push (.pyint 256) ⟨2, true, []⟩ = (BININT2.code ++ p16 256, none) ∧
    util_push (.pyint 65536) ⟨2, true, []⟩ = (BININT.code ++ p32 65536, none) ∧
    util_push (.pyint (2 ^ 31)) ⟨2, true, []⟩ =
      (LONG1.code ++ p8 ((packSignedLE (2 ^ 31)).length : Int) ++ packSignedLE (2 ^ 31), none) ∧
    util_push (.pyint 7) ⟨0, true, []⟩ = (INT.code ++ decimalRepr 7 ++ [10], none) ∧
    util_push (.pyint (2 ^ 31)) ⟨1, true, []⟩ =
      (INT.code ++ decimalRepr (2 ^ 31) ++ [10], none) := by
  have h2 := C1_util_push_int_selection ⟨2, true, []⟩ rfl
  have h0 := C1_util_push_int_selection ⟨0, true, []⟩ rfl
  have h1 := C1_util_push_int_selection ⟨1, true, []⟩ rfl
  refine ⟨((h2 255).1 (by norm_num)).1 ⟨by norm_num, by norm_num⟩,
    ((h2 256).1 (by norm_num)).2.1 ⟨by norm_num, by norm_num⟩,
    ((h2 65536).1 (by norm_num)).2.2.1 (Or.inl ⟨by norm_num, by norm_num⟩),
    ((h2 (2 ^ 31)).1 (by norm_num)).2.2.2 ⟨Or.inr (by norm_num), by norm_num, by norm_num⟩,
    (h0 7).2.1 rfl,
    (h1 (2 ^ 31)).2.2 rfl (Or.inr (by norm_num))⟩

/-- C3: the protocol gate.  For every opcode-emission call: with
verification enabled and active protocol below the opcode's minimum, the
call raises `ProtocolMismatchError` carrying the opcode name, its minimum
protocol and the active protocol, and appends nothing; with verification
disabled (and arguments passing the per-method checks) the call succeeds and
appends the operation's bytes. -/
theorem C3_protocol_gate (c : Call) (st : PAState) (hop : isOpcodeCall c = true) :
    (st.verify = true → st.proto < (opcodeOf c).proto →
      emitOf c st =
        ([], some (.protocolMismatchOp (opcodeOf c).name (opcodeOf c).proto st.proto))) ∧
    (st.verify = false → validArgs c = true →
      ∃ rest, emitOf c st = ((opcodeOf c).code ++ rest, none)) := by
  constructor
  · intro hv hp
    cases c <;>
      simp_all [emitOf, isOpcodeCall, opcodeOf, gate, push_none, push_false, push_true,
        push_int, push_binint, push_binint1, push_binint2, push_long, push_long1, push_long4,
        push_binstring, push_short_binstring, push_binbytes, push_binbytes8,
        push_short_binbytes, push_bytearray8, push_unicode, push_binunicode,
        push_binunicode8, push_short_binunicode, push_empty_tuple, push_empty_list,
        push_empty_dict, push_empty_set, push_global, push_mark, build_tuple, build_tuple1,
        build_tuple2, build_tuple3, build_list, build_dict, build_frozenset, build_append,
        build_appends, build_setitem, build_setitems, build_additems, build_inst, build_obj,
        build_newobj, build_newobj_ex, build_stack_global, build_reduce, build_build,
        build_dup, pop, pop_mark, memo_get, memo_binget, memo_long_binget, memo_put,
        memo_binput, memo_long_binput, memo_memoize]
  · intro hv hva
    cases c with
    | push_none => exact ⟨[], by simp [emitOf, push_none, gate, hv, opcodeOf]⟩
    | push_false => exact ⟨[], by simp [emitOf, push_false, gate, hv, opcodeOf]⟩
    | push_true => exact ⟨[], by simp [emitOf, push_true, gate, hv, opcodeOf]⟩
    | push_int v =>
      cases v with
      | bool b =>
        cases b
        · exact ⟨[48, 48, 10], by
            simp [emitOf, push_int, gate, hv, opcodeOf, FALSE_LIT, INT]⟩
        · exact ⟨[48, 49, 10], by
            simp [emitOf, push_int, gate, hv, opcodeOf, TRUE_LIT, INT]⟩
      | int w =>
        exact ⟨decimalRepr w ++ [10], by simp [emitOf, push_int, gate, hv, opcodeOf]⟩
    | push_binint v =>
      simp only [validArgs, decide_eq_true_eq] at hva
      exact ⟨p32 v.toInt, by
        simp only [emitOf, push_binint, gate, hv, opcodeOf, Bool.false_eq_true, false_and,
          if_false]
        rw [if_neg (by omega)]⟩
    | push_binint1 v =>
      simp only [validArgs, decide_eq_true_eq] at hva
      exact ⟨p8 v.toInt, by
        simp only [emitOf, push_binint1, gate, hv, opcodeOf, Bool.false_eq_true, false_and,
          if_false]
        rw [if_neg (by omega)]⟩
    | push_binint2 v =>
      simp only [validArgs, decide_eq_true_eq] at hva
      exact ⟨p16 v.toInt, by
        simp only [emitOf, push_binint2, gate, hv, opcodeOf, Bool.false_eq_true, false_and,
          if_false]
        rw [if_neg (by omega)]⟩
    | push_long v =>
      exact ⟨pyIntRepr v ++ [10], by simp [emitOf, push_long, gate, hv, opcodeOf]⟩
    | push_long1 v =>
      simp only [validArgs, decide_eq_true_eq] at hva
      exact ⟨p8 ((packSignedLE v.toInt).length : Int) ++ packSignedLE v.toInt, by
        simp only [emitOf, push_long1, gate, hv, opcodeOf, Bool.false_eq_true, false_and,
          if_false]
        rw [if_neg (by omega)]
        simp⟩
    | push_long4 v =>
      simp only [validArgs, decide_eq_true_eq] at hva
      exact ⟨p32 ((packSignedLE v.toInt).length : Int) ++ packSignedLE v.toInt, by
        simp only [emitOf, push_long4, gate, hv, opcodeOf, Bool.false_eq_true, false_and,
          if_false]
        rw [if_neg (by omega)]
        simp⟩
    | push_binstring v e =>
      simp only [validArgs] at hva
      cases henc : codecEncode e v with
      | error e2 => rw [henc] at hva; simp at hva
      | ok bs2 =>
        rw [henc] at hva
        simp only [decide_eq_true_eq] at hva
        exact ⟨p32 (bs2.length : Int) ++ bs2, by
          simp only [emitOf, push_binstring, gate, hv, opcodeOf, Bool.false_eq_true,
            false_and, if_false, henc]
          rw [if_neg (by omega)]
          simp⟩
    | push_short_binstring v e =>
      simp only [validArgs] at hva
      cases henc : codecEncode e v with
      | error e2 => rw [henc] at hva; simp at hva
      | ok bs2 =>
        rw [henc] at hva
        simp only [decide_eq_true_eq] at hva
        exact ⟨p8 (bs2.length : Int) ++ bs2, by
          simp only [emitOf, push_short_binstring, gate, hv, opcodeOf, Bool.false_eq_true,
            false_and, if_false, henc]
          rw [if_neg (by omega)]
          simp⟩
    | push_binbytes v =>
      cases v with
      | bytearray bs => simp [validArgs, PyByteSeq.isBytes] at hva
      | bytes bs =>
        simp only [validArgs, PyByteSeq.isBytes, PyByteSeq.data, Bool.true_and,
          decide_eq_true_eq] at hva
        exact ⟨p32 (bs.length : Int) ++ bs, by
          simp only [emitOf, push_binbytes, gate, hv, opcodeOf, Bool.false_eq_true,
            false_and, if_false]
          rw [if_neg (by omega)]
          simp⟩
    | push_binbytes8 v =>
      cases v with
      | bytearray bs => simp [validArgs, PyByteSeq.isBytes] at hva
      | bytes bs =>
        simp only [validArgs, PyByteSeq.isBytes, PyByteSeq.data, Bool.true_and,
          decide_eq_true_eq] at hva
        exact ⟨p64 (bs.length : Int) ++ bs, by
          simp only [emitOf, push_binbytes8, gate, hv, opcodeOf, Bool.false_eq_true,
            false_and, if_false]
          rw [if_neg (by omega)]
          simp⟩
    | push_short_binbytes v =>
      cases v with
      | bytearray bs => simp [validArgs, PyByteSeq.isBytes] at hva
      | bytes bs =>
        simp only [validArgs, PyByteSeq.isBytes, PyByteSeq.data, Bool.true_and,
          decide_eq_true_eq] at hva
        exact ⟨p8 (bs.length : Int) ++ bs, by
          simp only [emitOf, push_short_binbytes, gate, hv, opcodeOf, Bool.false_eq_true,
            false_and, if_false]
          rw [if_neg (by omega)]
          simp⟩
    | push_bytearray8 v =>
      simp only [validArgs, decide_eq_true_eq] at hva
      exact ⟨p64 (v.data.length : Int) ++ v.data, by
        simp only [emitOf, push_bytearray8, gate, hv, opcodeOf, Bool.false_eq_true,
          false_and, if_false]
        rw [if_neg (by omega)]
        simp⟩
    | push_unicode v =>
      exact ⟨rawUnicodeEscape (strReplaceChar 26 [92, 117, 48, 48, 49, 97]
          (strReplaceChar 13 [92, 117, 48, 48, 48, 100]
            (strReplaceChar 10 [92, 117, 48, 48, 48, 97]
              (strReplaceChar 0 [92, 117, 48, 48, 48, 48]
                (strReplaceChar 92 [92, 117, 48, 48, 53, 99] v))))) ++ [10], by
        simp [emitOf, push_unicode, gate, hv, opcodeOf]⟩
    | push_binunicode v =>
      simp only [validArgs, decide_eq_true_eq] at hva
      exact ⟨p32 ((utf8Encode v).length : Int) ++ utf8Encode v, by
        simp only [emitOf, push_binunicode, gate, hv, opcodeOf, Bool.false_eq_true,
          false_and, if_false]
        rw [if_neg (by omega)]
        simp⟩
    | push_binunicode8 v =>
      simp only [validArgs, decide_eq_true_eq] at hva
      exact ⟨p64 ((utf8Encode v).length : Int) ++ utf8Encode v, by
        simp only [emitOf, push_binunicode8, gate, hv, opcodeOf, Bool.false_eq_true,
          false_and, if_false]
        rw [if_neg (by omega)]
        simp⟩
    | push_short_binunicode v =>
      simp only [validArgs, decide_eq_true_eq] at hva
      exact ⟨p8 ((utf8Encode v).length : Int) ++ utf8Encode v, by
        simp only [emitOf, push_short_binunicode, gate, hv, opcodeOf, Bool.false_eq_true,
          false_and, if_false]
        rw [if_neg (by omega)]
        simp⟩
    | push_global m n =>
      simp only [validArgs, Bool.and_eq_true] at hva
      cases henc1 : codecEncode .utf8 m with
      | error e1 => rw [henc1] at hva; simp [Except.toBool] at hva
      | ok mb =>
        cases henc2 : codecEncode .utf8 n with
        | error e2 => rw [henc2] at hva; simp [Except.toBool] at hva
        | ok nb =>
          exact ⟨mb ++ [10] ++ nb ++ [10], by
            simp [emitOf, push_global, gate, hv, opcodeOf, henc1, henc2]⟩
    | push_mark => exact ⟨[], by simp [emitOf, push_mark, gate, hv, opcodeOf]⟩
    | push_empty_tuple => exact ⟨[], by simp [emitOf, push_empty_tuple, gate, hv, opcodeOf]⟩
    | push_empty_list => exact ⟨[], by simp [emitOf, push_empty_list, gate, hv, opcodeOf]⟩
    | push_empty_dict => exact ⟨[], by simp [emitOf, push_empty_dict, gate, hv, opcodeOf]⟩
    | push_empty_set => exact ⟨[], by simp [emitOf, push_empty_set, gate, hv, opcodeOf]⟩
    | build_tuple => exact ⟨[], by simp [emitOf, build_tuple, gate, hv, opcodeOf]⟩
    | build_tuple1 => exact ⟨[], by simp [emitOf, build_tuple1, gate, hv, opcodeOf]⟩
    | build_tuple2 => exact ⟨[], by simp [emitOf, build_tuple2, gate, hv, opcodeOf]⟩
    | build_tuple3 => exact ⟨[], by simp [emitOf, build_tuple3, gate, hv, opcodeOf]⟩
    | build_list => exact ⟨[], by simp [emitOf, build_list, gate, hv, opcodeOf]⟩
    | build_dict => exact ⟨[], by simp [emitOf, build_dict, gate, hv, opcodeOf]⟩
    | build_frozenset => exact ⟨[], by simp [emitOf, build_frozenset, gate, hv, opcodeOf]⟩
    | build_append => exact ⟨[], by simp [emitOf, build_append, gate, hv, opcodeOf]⟩
    | build_appends => exact ⟨[], by simp [emitOf, build_appends, gate, hv, opcodeOf]⟩
    | build_setitem => exact ⟨[], by simp [emitOf, build_setitem, gate, hv, opcodeOf]⟩
    | build_setitems => exact ⟨[], by simp [emitOf, build_setitems, gate, hv, opcodeOf]⟩
    | build_additems => exact ⟨[], by simp [emitOf, build_additems, gate, hv, opcodeOf]⟩
    | build_inst m n =>
      simp only [validArgs, Bool.and_eq_true] at hva
      cases henc1 : codecEncode .ascii m with
      | error e1 => rw [henc1] at hva; simp [Except.toBool] at hva
      | ok mb =>
        cases henc2 : codecEncode .ascii n with
        | error e2 => rw [henc2] at hva; simp [Except.toBool] at hva
        | ok nb =>
          exact ⟨mb ++ [10] ++ nb ++ [10], by
            simp [emitOf, build_inst, gate, hv, opcodeOf, henc1, henc2]⟩
    | build_obj => exact ⟨[], by simp [emitOf, build_obj, gate, hv, opcodeOf]⟩
    | build_newobj => exact ⟨[], by simp [emitOf, build_newobj, gate, hv, opcodeOf]⟩
    | build_newobj_ex => exact ⟨[], by simp [emitOf, build_newobj_ex, gate, hv, opcodeOf]⟩
    | build_stack_global =>
      exact ⟨[], by simp [emitOf, build_stack_global, gate, hv, opcodeOf]⟩
    | build_reduce => exact ⟨[], by simp [emitOf, build_reduce, gate, hv, opcodeOf]⟩
    | build_build => exact ⟨[], by simp [emitOf, build_build, gate, hv, opcodeOf]⟩
    | build_dup => exact ⟨[], by simp [emitOf, build_dup, gate, hv, opcodeOf]⟩
    | pop => exact ⟨[], by simp [emitOf, pop, gate, hv, opcodeOf]⟩
    | pop_mark => exact ⟨[], by simp [emitOf, pop_mark, gate, hv, opcodeOf]⟩
    | memo_get i =>
      simp only [validArgs, decide_eq_true_eq] at hva
      exact ⟨pyIntRepr i ++ [10], by
        simp only [emitOf, memo_get, gate, hv, opcodeOf, Bool.false_eq_true, false_and,
          if_false]
        rw [if_neg (by omega)]
        simp⟩
    | memo_binget i =>
      simp only [validArgs, decide_eq_true_eq] at hva
      exact ⟨p8 i.toInt, by
        simp only [emitOf, memo_binget, gate, hv, opcodeOf, Bool.false_eq_true, false_and,
          if_false]
        rw [if_neg (by omega)]⟩
    | memo_long_binget i =>
      simp only [validArgs, decide_eq_true_eq] at hva
      exact ⟨p32 i.toInt, by
        simp only [emitOf, memo_long_binget, gate, hv, opcodeOf, Bool.false_eq_true,
          false_and, if_false]
        rw [if_neg (by omega)]⟩
    | memo_put i =>
      simp only [validArgs, decide_eq_true_eq] at hva
      exact ⟨pyIntRepr i ++ [10], by
        simp only [emitOf, memo_put, gate, hv, opcodeOf, Bool.false_eq_true, false_and,
          if_false]
        rw [if_neg (by omega)]
        simp⟩
    | memo_binput i =>
      simp only [validArgs, decide_eq_true_eq] at hva
      exact ⟨p8 i.toInt, by
        simp only [emitOf, memo_binput, gate, hv, opcodeOf, Bool.false_eq_true, false_and,
          if_false]
        rw [if_neg (by omega)]⟩
    | memo_long_binput i =>
      simp only [validArgs, decide_eq_true_eq] at hva
      exact ⟨p32 i.toInt, by
        simp only [emitOf, memo_long_binput, gate, hv, opcodeOf, Bool.false_eq_true,
          false_and, if_false]
        rw [if_neg (by omega)]⟩
    | memo_memoize => exact ⟨[], by simp [emitOf, memo_memoize, gate, hv, opcodeOf]⟩
    | append_raw d => simp [isOpcodeCall] at hop
    | util_push v => simp [isOpcodeCall] at hop
    | util_memo_get i => simp [isOpcodeCall] at hop
    | util_memo_put i => simp [isOpcodeCall] at hop

theorem C3_witness :
    emitOf (.push_binbytes (.bytes [7])) ⟨2, true, []⟩ =
      ([], some (.protocolMismatchOp (opcodeOf (.push_binbytes (.bytes [7]))).name
        (opcodeOf (.push_binbytes (.bytes [7]))).proto 2)) ∧
    (emitOf (.push_binbytes (.bytes [7])) ⟨2, false, []⟩).2 = none := by
  have h1 := C3_protocol_gate (.push_binbytes (.bytes [7])) ⟨2, true, []⟩ rfl
  have h2 := C3_protocol_gate (.push_binbytes (.bytes [7])) ⟨2, false, []⟩ rfl
  refine ⟨h1.1 rfl (by norm_num [opcodeOf, BINBYTES]), ?_⟩
  obtain ⟨rest, hrest⟩ := h2.2 rfl (by decide)
  rw [hrest]

/-! ### Error analysis helpers for C4 and C5 -/

theorem codecEncode_error_not_pm {cd : Codec} {s : List Nat} {e : Err}
    (h : codecEncode cd s = .error e) : e.isProtocolMismatch = false := by
  cases cd with
  | ascii =>
    simp only [codecEncode] at h
    split at h
    · simp at h
    · injection h with h2
      rw [← h2]
      rfl
  | utf8 =>
    simp only [codecEncode] at h
    split at h
    · simp at h
    · injection h with h2
      rw [← h2]
      rfl
  | unknownName =>
    simp only [codecEncode] at h
    injection h with h2
    rw [← h2]
    rfl

theorem some_eq_some_pair {bs : List Nat} {x e : Err}
    (he : ((bs, some x) : EmitResult).2 = some e) : x = e := by
  simpa using he

/-- With verification disabled, no opcode-emission method can raise a
protocol-mismatch error: the gate is skipped and every in-body failure is a
type, range, lookup or encoding error. -/
theorem emitOf_error_not_pm (c : Call) (st : PAState) (hop : isOpcodeCall c = true)
    (hv : st.verify = false) (r : EmitResult) (hr : emitOf c st = r)
    (e : Err) (he : r.2 = some e) : e.isProtocolMismatch = false := by
  cases c <;>
    first
      | (simp only [emitOf, push_none, push_false, push_true, push_int, push_binint,
          push_binint1, push_binint2, push_long, push_long1, push_long4, push_binstring,
          push_short_binstring, push_binbytes, push_binbytes8, push_short_binbytes,
          push_bytearray8, push_unicode, push_binunicode, push_binunicode8,
          push_short_binunicode, push_empty_tuple, push_empty_list, push_empty_dict,
          push_empty_set, push_global, push_mark, build_tuple, build_tuple1, build_tuple2,
          build_tuple3, build_list, build_dict, build_frozenset, build_append,
          build_appends, build_setitem, build_setitems, build_additems, build_inst,
          build_obj, build_newobj, build_newobj_ex, build_stack_global, build_reduce,
          build_build, build_dup, pop, pop_mark, memo_get, memo_binget, memo_long_binget,
          memo_put, memo_binput, memo_long_binput, memo_memoize] at hr
         rw [gate_pass (Or.inl hv)] at hr
         repeat' split at hr
         all_goals subst hr
         all_goals
           first
             | (rw [← some_eq_some_pair he]; rfl)
             | (rw [← some_eq_some_pair he]; exact codecEncode_error_not_pm (by assumption))
             | simp at he)
      | (simp only [isOpcodeCall] at hop; exact Bool.noConfusion hop)

/-- Every opcode-emission method other than `build_inst` and `push_global`
appends nothing when it raises. -/
theorem emitOf_error_atomic (c : Call) (st : PAState) (hop : isOpcodeCall c = true)
    (hmn : isModNameCall c = false) (r : EmitResult) (hr : emitOf c st = r)
    (e : Err) (he : r.2 = some e) : r.1 = [] := by
  cases c <;>
    first
      | (simp only [emitOf, push_none, push_false, push_true, push_int, push_binint,
          push_binint1, push_binint2, push_long, push_long1, push_long4, push_binstring,
          push_short_binstring, push_binbytes, push_binbytes8, push_short_binbytes,
          push_bytearray8, push_unicode, push_binunicode, push_binunicode8,
          push_short_binunicode, push_empty_tuple, push_empty_list, push_empty_dict,
          push_empty_set, push_mark, build_tuple, build_tuple1, build_tuple2,
          build_tuple3, build_list, build_dict, build_frozenset, build_append,
          build_appends, build_setitem, build_setitems, build_additems,
          build_obj, build_newobj, build_newobj_ex, build_stack_global, build_reduce,
          build_build, build_dup, pop, pop_mark, memo_get, memo_binget, memo_long_binget,
          memo_put, memo_binput, memo_long_binput, memo_memoize, gate] at hr
         repeat' split at hr
         all_goals subst hr
         all_goals first | rfl | simp at he)
      | (simp only [isModNameCall] at hmn; exact Bool.noConfusion hmn)
      | (simp only [isOpcodeCall] at hop; exact Bool.noConfusion hop)

theorem build_inst_error_shape (st : PAState) (module nm : List Nat) (r : EmitResult)
    (hr : build_inst module nm st = r) (e : Err) (he : r.2 = some e) :
    r.1 = [] ∨ r.1 = INST.code ∨ ∃ mb, r.1 = INST.code ++ mb ++ [10] := by
  simp only [build_inst, gate] at hr
  repeat' split at hr
  all_goals subst hr
  all_goals
    first
      | exact Or.inl rfl
      | exact Or.inr (Or.inl rfl)
      | exact Or.inr (Or.inr ⟨_, rfl⟩)

theorem push_global_error_shape (st : PAState) (module nm : List Nat) (r : EmitResult)
    (hr : push_global module nm st = r) (e : Err) (he : r.2 = some e) :
    r.1 = [] ∨ r.1 = GLOBAL.code ∨ ∃ mb, r.1 = GLOBAL.code ++ mb ++ [10] := by
  simp only [push_global, gate] at hr
  repeat' split at hr
  all_goals subst hr
  all_goals
    first
      | exact Or.inl rfl
      | exact Or.inr (Or.inl rfl)
      | exact Or.inr (Or.inr ⟨_, rfl⟩)

/-- C4 counterexample: with verification disabled, `util_push` on a
byte-string at protocol 0 still raises `ProtocolMismatchError` (the direct
raise inside `_util_push_bytes` is not guarded by `verify`), refuting the
claim that no operation raises it when verification is disabled. -/
theorem C4_counterexample :
    (exec (.util_push (.pybytes [])) ⟨0, false, []⟩).2 = some .protocolMismatchBytes ∧
    Err.isProtocolMismatch .protocolMismatchBytes = true ∧
    (⟨0, false, []⟩ : PAState).verify = false := by
  refine ⟨?_, rfl, rfl⟩
  simp [exec, emitOf, util_push, util_push_bytes]

/-- C4 (amended): with verification disabled no opcode-emission method raises
`ProtocolMismatchError`, but `util_push` on a byte-string at protocol < 3
raises it regardless of the verification flag, appending nothing. -/
theorem C4_amended (st : PAState) (hv : st.verify = false) :
    (∀ c : Call, isOpcodeCall c = true → ∀ e, (emitOf c st).2 = some e →
      e.isProtocolMismatch = false) ∧
    (∀ bs : List Nat, st.proto < 3 →
      util_push (.pybytes bs) st = ([], some .protocolMismatchBytes)) := by
  constructor
  · intro c hop e he
    exact emitOf_error_not_pm c st hop hv _ rfl e he
  · intro bs hp
    simp [util_push, util_push_bytes, hp]

theorem C4_amended_witness :
    (emitOf (.push_binint1 (.int 300)) ⟨0, false, []⟩).2 = some .valueError ∧
    Err.isProtocolMismatch .valueError = false ∧
    util_push (.pybytes [1]) ⟨0, false, []⟩ = ([], some .protocolMismatchBytes) := by
  have h := C4_amended ⟨0, false, []⟩ rfl
  exact ⟨rfl, h.1 (.push_binint1 (.int 300)) rfl .valueError rfl, h.2 [1] (by norm_num)⟩

/-- C5 counterexample: `build_inst` with a non-ASCII module name appends the
`INST` opcode byte before the encoding step fails, so the raising call
leaves the buffer changed, refuting the claim that every failing emission
call leaves the buffer as it was. -/
theorem C5_counterexample :
    (exec (.build_inst [225] []) ⟨0, true, []⟩).2 = some .unicodeEncodeError ∧
    (exec (.build_inst [225] []) ⟨0, true, []⟩).1.payload = [105] ∧
    ([105] : List Nat) ≠ ([] : List Nat) := by
  exact ⟨rfl, rfl, by simp⟩

/-- C5 (amended): every opcode-emission method other than `build_inst` and
`push_global` is atomic on failure (the raising call leaves the buffer
unchanged); `build_inst` and `push_global` may fail after appending the
opcode byte, or the opcode byte and the encoded module line. -/
theorem C5_amended (c : Call) (st : PAState) (hop : isOpcodeCall c = true) :
    (isModNameCall c = false → ∀ e, (exec c st).2 = some e → (exec c st).1 = st) ∧
    (∀ module nm, c = .build_inst module nm ∨ c = .push_global module nm → ∀ e,
      (emitOf c st).2 = some e →
      (emitOf c st).1 = [] ∨ (emitOf c st).1 = (opcodeOf c).code ∨
      ∃ mb, (emitOf c st).1 = (opcodeOf c).code ++ mb ++ [10]) := by
  constructor
  · intro hmn e he
    have hd := emitOf_error_atomic c st hop hmn _ rfl e he
    simp [exec, hd]
  · rintro module nm (rfl | rfl) e he
    · exact build_inst_error_shape st module nm _ rfl e he
    · exact push_global_error_shape st module nm _ rfl e he

theorem C5_amended_witness :
    (exec (.push_binint1 (.int 300)) ⟨1, true, []⟩).2 = some .valueError ∧
    (exec (.push_binint1 (.int 300)) ⟨1, true, []⟩).1 = ⟨1, true, []⟩ := by
  have h1 := C5_amended (.push_binint1 (.int 300)) ⟨1, true, []⟩ rfl
  exact ⟨rfl, h1.1 rfl .valueError rfl⟩

/-! ### Append-only payload and the C7 header invariant -/

theorem runCalls_payload_extends (cs : List Call) (st : PAState) :
    ∃ d, (runCalls cs st).payload = st.payload ++ d := by
  induction cs generalizing st with
  | nil => exact ⟨[], by simp [runCalls]⟩
  | cons c cs ih =>
    obtain ⟨d, hd⟩ := ih (exec c st).1
    refine ⟨(emitOf c st).1 ++ d, ?_⟩
    show (runCalls cs (exec c st).1).payload = _
    rw [hd]
    show ({ st with payload := st.payload ++ (emitOf c st).1 } : PAState).payload ++ d = _
    simp

/-- C7: for protocol >= 2 construction writes the two header bytes `0x80`
and the protocol number, and since every modelled operation (every emission
method, `util_push`, raw append) only ever appends to the payload, and
`assemble` appends the terminator to a copy, the two-byte prefix survives
any sequence of subsequent calls. -/
theorem C7_header_invariant (p : Nat) (hp2 : 2 ≤ p) (hp5 : p ≤ 5) (vf : Bool)
    (cs : List Call) :
    mkAssembler (.int (p : Int)) (.bool vf) = .ok ⟨p, vf, [128, p]⟩ ∧
    (runCalls cs ⟨p, vf, [128, p]⟩).payload.take 2 = [128, p] ∧
    (assemble (runCalls cs ⟨p, vf, [128, p]⟩)).take 2 = [128, p] := by
  have hp8 : p8 (p : Int) = [p] := by
    simp only [p8, toBytesLE, pow_one]
    rw [Int.emod_eq_of_lt (by omega) (by omega)]
    simp [natToBytesLE]
    omega
  obtain ⟨d, hd⟩ := runCalls_payload_extends cs ⟨p, vf, [128, p]⟩
  refine ⟨?_, ?_, ?_⟩
  · unfold mkAssembler
    rw [if_neg (by
      simp only [PyInt.toInt, HIGHEST_PROTOCOL]
      push_neg
      exact ⟨by omega, by omega⟩)]
    simp only [PyInt.toInt]
    rw [if_pos (by omega), hp8]
    simp [PROTO, Int.toNat_natCast]
  · rw [hd]
    rfl
  · rw [assemble, hd]
    rfl

theorem C7_witness :
    mkAssembler (.int (2 : Int)) (.bool true) = .ok ⟨2, true, [128, 2]⟩ ∧
    (runCalls [.push_none] ⟨2, true, [128, 2]⟩).payload.take 2 = [128, 2] ∧
    (assemble (runCalls [.push_none] ⟨2, true, [128, 2]⟩)).take 2 = [128, 2] :=
  C7_header_invariant 2 (by norm_num) (by norm_num) true [.push_none]

/-- C8: `assemble` returns the accumulated buffer with the `STOP` terminator
appended.  In this embedding `assemble` is a pure function of the state (the
source method is `return self._payload + STOP`, which mutates nothing), so
the buffer is unchanged and repeated calls agree; the second conjunct states
that the result depends on the payload alone. -/
theorem C8_assemble (st : PAState) :
    assemble st = st.payload ++ STOP.code ∧
    (∀ st2 : PAState, st2.payload = st.payload → assemble st2 = assemble st) := by
  refine ⟨rfl, fun st2 h => ?_⟩
  simp [assemble, h]

theorem C8_witness :
    assemble ⟨0, true, [78]⟩ = [78] ++ STOP.code ∧
    assemble ⟨2, false, [78]⟩ = assemble ⟨0, true, [78]⟩ := by
  have h := C8_assemble ⟨0, true, [78]⟩
  exact ⟨h.1, h.2 ⟨2, false, [78]⟩ rfl⟩

/-- C9: Python `bool` passes the `isinstance(int)` checks: constructing with
protocol `True` succeeds and behaves as protocol 1 (no header bytes), and
`push_binint1(True)` succeeds, appending the `BININT1` opcode and the byte
`0x01`; by contrast the `verify` flag is checked with `isinstance(bool)`, so
the integer `1` raises `TypeError`. -/
theorem C9_bool_as_int :
    mkAssembler (.bool true) (.bool true) = .ok ⟨1, true, []⟩ ∧
    push_binint1 (.bool true) ⟨1, true, []⟩ = (BININT1.code ++ [1], none) ∧
    mkAssembler (.int 1) (.int 1) = .error .typeError :=
  ⟨rfl, rfl, rfl⟩

/-- C10: `append_raw` accepts only immutable `bytes` (a `bytearray` raises
`TypeError` and nothing is appended), and on success appends the given bytes
verbatim; `push_bytearray8` accepts both `bytes` and `bytearray` (protocol
gate assumed passed: `verify` off or protocol >= 5). -/
theorem C10_append_raw (bs : List Nat) (st : PAState)
    (hready : st.verify = false ∨ 5 ≤ st.proto) (hlen : bs.length < 2 ^ 64) :
    append_raw (.bytearray bs) st = ([], some .typeError) ∧
    append_raw (.bytes bs) st = (bs, none) ∧
    push_bytearray8 (.bytearray bs) st =
      (BYTEARRAY8.code ++ p64 (bs.length : Int) ++ bs, none) ∧
    push_bytearray8 (.bytes bs) st =
      (BYTEARRAY8.code ++ p64 (bs.length : Int) ++ bs, none) := by
  refine ⟨rfl, rfl, ?_, ?_⟩ <;>
  · rw [push_bytearray8, gate_pass (by simpa using hready)]
    simp only [PyByteSeq.data]
    rw [if_neg (by omega)]

theorem C10_witness :
    append_raw (.bytearray [1, 2]) ⟨5, true, []⟩ = ([], some .typeError) ∧
    append_raw (.bytes [1, 2]) ⟨5, true, []⟩ = ([1, 2], none) ∧
    push_bytearray8 (.bytearray [1, 2]) ⟨5, true, []⟩ =
      (BYTEARRAY8.code ++ p64 (([1, 2] : List Nat).length : Int) ++ [1, 2], none) ∧
    push_bytearray8 (.bytes [1, 2]) ⟨5, true, []⟩ =
      (BYTEARRAY8.code ++ p64 (([1, 2] : List Nat).length : Int) ++ [1, 2], none) :=
  C10_append_raw [1, 2] ⟨5, true, []⟩ (Or.inr (by norm_num)) (by norm_num)

end PickleAssem
